import Mathlib

/-!
Verification of the sample-configuration generator of the `oslocfg`
repository (`src/oslocfg/generator.py`).

The development shallowly embeds the generator pipeline:
Python strings stay `String`, but every Python `str` method used by the
source (`split`, `lower`, `strip`, `splitlines`, lexicographic `<`) is
implemented structurally over `String.data` so that all definitions
evaluate inside the kernel.  Python `dict`/`collections.OrderedDict`
values are embedded as insertion-ordered association lists with
overwrite-in-place assignment, matching CPython semantics.  Fallible
Python code (unpacking errors, raised exceptions) is embedded with
`Except String`.
-/

namespace OsloCfg

/-! ## Python string primitives -/

/-- Code-point lexicographic comparison of character lists: the order used
by Python `<` on `str` values (and hence by `sorted`). -/
def chLt : List Char → List Char → Bool
  | [], [] => false
  | [], _ :: _ => true
  | _ :: _, [] => false
  | a :: as, b :: bs =>
    if a.toNat < b.toNat then true
    else if b.toNat < a.toNat then false
    else chLt as bs

/-- Python `s < t` on strings. -/
def pyStrLt (s t : String) : Bool :=
  chLt s.data t.data

/-- Auxiliary splitter: Python `str.split(sep)` over a character list. -/
def splitChAux (sep : Char) : List Char → List Char → List String
  | [], acc => [String.mk acc.reverse]
  | c :: rest, acc =>
    if c = sep then String.mk acc.reverse :: splitChAux sep rest []
    else splitChAux sep rest (c :: acc)

/-- Python `s.split(sep)` for a one-character separator. -/
def pySplit (sep : Char) (s : String) : List String :=
  splitChAux sep s.data []

/-- The tuple unpacking `name, cls = s.split(":")` of generator.py lines
322 and 339/342: succeeds exactly when the identifier contains one `:`,
otherwise Python raises `ValueError`. -/
def pySplitColon (s : String) : Except String (String × String) :=
  match pySplit ':' s with
  | [a, b] => Except.ok (a, b)
  | _ => Except.error "ValueError: namespace unpacking"

/-- Python `str.lower` (ASCII case is all the generator relies on). -/
def pyLower (s : String) : String :=
  String.mk (s.data.map Char.toLower)

/-- Characters removed by Python `str.strip()`. -/
def pySpace (c : Char) : Bool :=
  c = ' ' || c = '\t' || c = '\n' || c = '\r' || c = '\x0b' || c = '\x0c'

/-- Python `s.strip()`. -/
def pyStrip (s : String) : String :=
  String.mk (((s.data.dropWhile pySpace).reverse.dropWhile pySpace).reverse)

/-- Auxiliary for `pySplitlines`. -/
def pySplitlinesAux : List Char → List Char → List String
  | [], [] => []
  | [], acc => [String.mk acc.reverse]
  | c :: rest, acc =>
    if c = '\n' then String.mk acc.reverse :: pySplitlinesAux rest []
    else pySplitlinesAux rest (c :: acc)

/-- Python `s.splitlines()` (the help texts only use `\n` breaks). -/
def pySplitlines (s : String) : List String :=
  pySplitlinesAux s.data []

/-- Python `", ".join`-style concatenation. -/
def pyJoin (sep : String) : List String → String
  | [] => ""
  | [s] => s
  | s :: rest => s ++ sep ++ pyJoin sep rest

/-- Concatenation of a list of strings (Python `"".join`, and the
`wrapped += ...` accumulation loop of `_format_help`). -/
def strConcat : List String → String
  | [] => ""
  | s :: rest => s ++ strConcat rest

/-! ## Python values

The option attributes `default` and `sample_default` hold ordinary Python
values (None, strings, booleans, numbers, lists of strings, string
dictionaries).  `PyVal` embeds the shapes the generator manipulates. -/

inductive PyVal where
  | none
  | str (s : String)
  | bool (b : Bool)
  | int (n : Int)
  | list (xs : List String)
  | dict (kvs : List (String × String))
deriving DecidableEq

/-- Python truthiness (`not opt.default`) for the embedded values. -/
def pyFalsy : PyVal → Bool
  | PyVal.none => true
  | PyVal.str s => s.data.isEmpty
  | PyVal.bool b => !b
  | PyVal.int n => n = 0
  | PyVal.list xs => xs.isEmpty
  | PyVal.dict kvs => kvs.isEmpty

/-- Python `repr` of a string (used inside `str` of lists/dicts). -/
def pyReprStr (s : String) : String :=
  "\u0027" ++ s ++ "\u0027"

/-- Python `str(v)` for the embedded values. -/
def pyStr : PyVal → String
  | PyVal.none => "None"
  | PyVal.str s => s
  | PyVal.bool b => if b then "True" else "False"
  | PyVal.int n => toString n
  | PyVal.list xs => "[" ++ pyJoin ", " (xs.map pyReprStr) ++ "]"
  | PyVal.dict kvs =>
    "\x7b" ++ pyJoin ", " (kvs.map (fun kv => pyReprStr kv.1 ++ ": " ++ pyReprStr kv.2)) ++ "\x7d"

/-- Using a Python value as a list of strings (iterating / `",".join`):
anything else raises a `TypeError` at run time. -/
def asStrList : PyVal → Except String (List String)
  | PyVal.list xs => Except.ok xs
  | _ => Except.error "TypeError: not a list of strings"

/-- Using a Python value as a string: non-strings raise when the
generator later calls `str` methods on them. -/
def asStr : PyVal → Except String String
  | PyVal.str s => Except.ok s
  | _ => Except.error "TypeError: not a string"

/-- Using a Python value as a string dictionary. -/
def asDict : PyVal → Except String (List (String × String))
  | PyVal.dict kvs => Except.ok kvs
  | _ => Except.error "TypeError: not a dict"

/-! ## Insertion-ordered dictionaries

Python `dict` / `collections.OrderedDict` as association lists:
assignment to an existing key keeps its position and replaces the value,
assignment to a fresh key appends. -/

/-- `d[k] = v` on an insertion-ordered dictionary. -/
def odSet {K V : Type} [DecidableEq K] (k : K) (v : V) : List (K × V) → List (K × V)
  | [] => [(k, v)]
  | (k', v') :: rest =>
    if k' = k then (k, v) :: rest else (k', v') :: odSet k v rest

/-- `if k not in d: d[k] = dflt` followed by `d[k] = f (d[k])`: modify in
place when present, otherwise append `(k, f dflt)`. -/
def odModify {K V : Type} [DecidableEq K] (k : K) (dflt : V) (f : V → V) :
    List (K × V) → List (K × V)
  | [] => [(k, f dflt)]
  | (k', v') :: rest =>
    if k' = k then (k', f v') :: rest else (k', v') :: odModify k dflt f rest

/-- Dictionary lookup. -/
def odGet {K V : Type} [DecidableEq K] (k : K) : List (K × V) → Option V
  | [] => Option.none
  | (k', v') :: rest => if k' = k then Option.some v' else odGet k rest

/-- Dictionary lookup with a default value. -/
def odGetD {K V : Type} [DecidableEq K] (k : K) (dflt : V) (d : List (K × V)) : V :=
  (odGet k d).getD dflt

/-- Removal of a key (`dict.pop`): keeps the order of the rest. -/
def odErase {K V : Type} [DecidableEq K] (k : K) : List (K × V) → List (K × V)
  | [] => []
  | (k', v') :: rest =>
    if k' = k then rest else (k', v') :: odErase k rest

/-- `list(d.values())`. -/
def odValues {K V : Type} (d : List (K × V)) : List V :=
  d.map Prod.snd

/-- `set.add`: insert if absent. -/
def setAdd (l : List String) (x : String) : List String :=
  if x ∈ l then l else l ++ [x]

/-! ## Stable sorting

Python `sorted(xs, key=k)` is a stable ascending sort comparing `k x < k y`.
`insertS`/`sortS` is the standard stable insertion sort for a boolean
strict comparator. -/

/-- Insert `x` after every element strictly below it (stability: `x` goes
before elements with an equal key). -/
def insertS {α : Type} (lt : α → α → Bool) (x : α) : List α → List α
  | [] => [x]
  | y :: ys => if lt y x then y :: insertS lt x ys else x :: y :: ys

/-- Stable ascending sort with strict comparator `lt`. -/
def sortS {α : Type} (lt : α → α → Bool) : List α → List α
  | [] => []
  | x :: xs => insertS lt x (sortS lt xs)

/-- The comparator of Python `sorted(xs, key=key)`: code-point order of
the extracted string keys. -/
def keyLt {α : Type} (key : α → String) (a b : α) : Bool :=
  pyStrLt (key a) (key b)

/-! ## The option data model

The option classes and the attributes read by the generator.  The option
type system itself lives in the external `cfg` module (not part of the
aggregation/generation sources); the generator only dispatches on the
class of an option and on a handful of attributes, so the embedding keeps
exactly those. -/

/-- Modelled from the spec: the option classes of the external `cfg`
module that `_format_defaults` dispatches on via `isinstance`
(string/IP/hostname, boolean, numeric, list-like, dict, multi-valued);
`unknownOpt` stands for any foreign class reaching the final `else`. -/
inductive OptClass where
  | strOpt
  | ipOpt
  | hostnameOpt
  | boolOpt
  | intOpt
  | floatOpt
  | portOpt
  | listOpt
  | configFileOpt
  | configDirOpt
  | dictOpt
  | multiStrOpt
  | unknownOpt
deriving DecidableEq

/-- The attributes of `opt.type` read by `_OptFormatter.format`:
`type_name` (via `getattr` with fallback), `min`, `max`, `choices`
(choices are Python values that may be `None` or `''`), and the optional
`format_defaults` capability.  `format_defaults` models the result of
calling the capability (an external callable that may itself raise). -/
structure OptType where
  type_name : Option String
  min : Option Int
  max : Option Int
  choices : Option (List (Option String))
  format_defaults : Option (Except String (List String))

/-- A deprecated alias of an option (`opt.deprecated_opts` entries);
`group`/`name` may be `None` (or empty, which Python `or` also treats as
absent). -/
structure DeprecatedOpt where
  group : Option String
  name : Option String
deriving DecidableEq

/-- The attributes of an option read by the generator.  `mutable` is an
`Option Bool`: `Option.none` embeds a foreign option object on which the
attribute access `opt.mutable` raises `AttributeError`. -/
structure Opt where
  dest : String
  cls : OptClass
  help : Option String
  default : PyVal
  sample_default : PyVal
  type : OptType
  mutable : Option Bool
  deprecated_opts : List DeprecatedOpt
  deprecated_for_removal : Bool
  deprecated_reason : Option String

/-- `cfg.OptGroup` as the generator sees it: a name and optional help.
`uid` embeds Python object identity (`OptGroup` defines no `__eq__`, so
dictionary keys compare by identity); `_get_raw_opts_loaders` threads a
fresh-uid counter for each `cfg.OptGroup(name)` construction. -/
structure OptGroup where
  name : String
  uid : Nat
  help : Option String
deriving DecidableEq

/-! ## `_format_defaults` (generator.py lines 82-122) -/

/-- The whitespace-quoting pass at the end of `_format_defaults`
(lines 117-122): a default string that is not equal to its own `strip()`
is wrapped in double quotes. -/
def quoteDefault (s : String) : String :=
  if pyStrip s ≠ s then "\"" ++ s ++ "\"" else s

/-- `sorted(opt.default.items(), key=operator.itemgetter(0))`. -/
def sortItems (kvs : List (String × String)) : List (String × String) :=
  sortS (keyLt Prod.fst) kvs

/-- `_format_defaults(opt)` (generator.py lines 82-122): the best-effort,
type-dispatched list of formatted default values.  Shapes on which the
Python code would raise (joining a non-list, stripping a non-string) are
embedded as errors. -/
def _format_defaults (opt : Opt) : Except String (List String) := do
  let defaults ←
    if opt.cls = OptClass.multiStrOpt then
      if opt.sample_default ≠ PyVal.none then
        asStrList opt.sample_default
      else if pyFalsy opt.default then
        Except.ok [""]
      else
        asStrList opt.default
    else do
      let default_str ←
        if opt.sample_default ≠ PyVal.none then
          Except.ok (pyStr opt.sample_default)
        else if opt.default = PyVal.none then
          Except.ok "<None>"
        else if opt.cls = OptClass.strOpt ∨ opt.cls = OptClass.ipOpt ∨
            opt.cls = OptClass.hostnameOpt then
          asStr opt.default
        else if opt.cls = OptClass.boolOpt then
          Except.ok (pyLower (pyStr opt.default))
        else if opt.cls = OptClass.intOpt ∨ opt.cls = OptClass.floatOpt ∨
            opt.cls = OptClass.portOpt then
          Except.ok (pyStr opt.default)
        else if opt.cls = OptClass.listOpt ∨ opt.cls = OptClass.configFileOpt ∨
            opt.cls = OptClass.configDirOpt then
          (asStrList opt.default).map (pyJoin ",")
        else if opt.cls = OptClass.dictOpt then
          (asDict opt.default).map
            (fun kvs => pyJoin "," ((sortItems kvs).map (fun kv => kv.1 ++ ":" ++ kv.2)))
        else
          Except.ok (pyStr opt.default)
      Except.ok [default_str]
  Except.ok (defaults.map quoteDefault)

/-! ## The formatter (`_OptFormatter`, generator.py lines 125-274)

The formatter's writes are modelled as the list of strings passed to
`write`/`writelines`, in call order.  `wrapJoin` stands for the external
`textwrap` collaborator: `wrapJoin w line` models
`"\n".join(textwrap.wrap(line, w, initial_indent='# ',
subsequent_indent='# ', break_long_words=False,
replace_whitespace=False))` (generator.py lines 146-150). -/

structure OptFormatter where
  wrapJoin : Int → String → String
  wrap_width : Option Int

/-- Python `or` fallback on an optional string (`d.group or 'DEFAULT'`):
`None` and the empty string both fall back. -/
def pyOrStr (o : Option String) (dflt : String) : String :=
  match o with
  | Option.none => dflt
  | Option.some s => if s.data.isEmpty then dflt else s

/-- Truthiness of an optional string attribute (`if opt.help:`). -/
def pyTruthyStr : Option String → Bool
  | Option.none => false
  | Option.some s => !s.data.isEmpty

/-- `_OptFormatter._format_help` (lines 138-156): with a positive wrap
width every input line is wrapped independently and the results are
accumulated into a single output string (`wrapped += ...`); an empty wrap
result contributes a bare `#`.  Otherwise the help is emitted as one
unwrapped `# <text>` line. -/
def _format_help (f : OptFormatter) (help_text : String) : List String :=
  match f.wrap_width with
  | Option.some w =>
    if w > 0 then
      [strConcat ((pySplitlines help_text).map (fun line =>
        (if f.wrapJoin w line = "" then "#" else f.wrapJoin w line) ++ "\n"))]
    else ["# " ++ help_text ++ "\n"]
  | Option.none => ["# " ++ help_text ++ "\n"]

/-- `_OptFormatter._get_choice_text` (lines 158-163). -/
def _get_choice_text : Option String → String
  | Option.none => "<None>"
  | Option.some s => if s = "" then "\u0027\u0027" else s

/-- A section dictionary key: either a plain string (the `'DEFAULT'`
sentinel) or a `cfg.OptGroup` object. -/
inductive SectionKey where
  | str (s : String)
  | group (g : OptGroup)
deriving DecidableEq

/-- `_OptFormatter.format_group` (lines 165-178): an `OptGroup` gets its
header plus wrapped help, a plain string just the header. -/
def format_group (f : OptFormatter) (key : SectionKey) : List String :=
  match key with
  | SectionKey.group g =>
    ("[" ++ g.name ++ "]\n") ::
      (if pyTruthyStr g.help then _format_help f (g.help.getD "") else [])
  | SectionKey.str s => ["[" ++ s ++ "]\n"]

/-- The commented default assignment `'#%s =%s\n'` of lines 255-258 (a
space is inserted only for a non-empty value). -/
def defaultLine (dest default_str : String) : String :=
  "#" ++ dest ++ " =" ++ (if default_str = "" then "" else " " ++ default_str) ++ "\n"

/-- `_OptFormatter.format` (lines 180-260).  The function returns the
lines handed to `writelines`, or the exception escaping `format`.  A
missing `mutable` attribute (a foreign option class) raises
`AttributeError` at line 210; the handler then evaluates
`isinstance(cfg.Opt, opt)` (line 224) whose arguments are swapped, so the
check itself raises `TypeError` (an instance is not a type), which
propagates out of `format` before anything is written. -/
def format (f : OptFormatter) (opt : Opt) : Except String (List String) := do
  let opt_type := opt.type.type_name.getD "unknown value"
  let help_text :=
    if pyTruthyStr opt.help then (opt.help.getD "") ++ " (" ++ opt_type ++ ")"
    else "(" ++ opt_type ++ ")"
  let lines := _format_help f help_text
  let lines := lines ++ (match opt.type.min with
    | Option.some m => ["# Minimum value: " ++ toString m ++ "\n"]
    | Option.none => [])
  let lines := lines ++ (match opt.type.max with
    | Option.some m => ["# Maximum value: " ++ toString m ++ "\n"]
    | Option.none => [])
  let lines := lines ++ (match opt.type.choices with
    | Option.some cs =>
      if cs.isEmpty then []
      else ["# Allowed values: " ++ pyJoin ", " (cs.map _get_choice_text) ++ "\n"]
    | Option.none => [])
  let lines ← (match opt.mutable with
    | Option.some b =>
      Except.ok (if b then
        lines ++ ["# Note: This option can be changed without restarting.\n"]
      else lines)
    | Option.none =>
      Except.error "isinstance() arg 2 must be a type or tuple of types")
  let lines := lines ++ opt.deprecated_opts.map (fun d =>
    "# Deprecated group/name - [" ++ pyOrStr d.group "DEFAULT" ++ "]/" ++
      pyOrStr d.name opt.dest ++ "\n")
  let lines := lines ++ (if opt.deprecated_for_removal then
      ["# This option is deprecated for removal.\n# Its value may be silently ignored in the future.\n"] ++
        (if pyTruthyStr opt.deprecated_reason then
          _format_help f ("Reason: " ++ opt.deprecated_reason.getD "")
        else [])
    else [])
  let defaults ← (match opt.type.format_defaults with
    | Option.some res => res
    | Option.none => _format_defaults opt)
  Except.ok (lines ++ defaults.map (defaultLine opt.dest))

/-! ## Aggregation and the generation pipeline -/

/-- Concatenated map (`List.bind` written out so everything unfolds with
the development's own simp lemmas). -/
def catMap {α β : Type} (f : α → List β) : List α → List β
  | [] => []
  | a :: l => f a ++ catMap f l

/-- `_cleanup_opts(read_opts)` (lines 277-309): three nested
insertion-ordered dictionaries keyed by namespace, group and option
`dest`; assigning an existing `dest` overwrites in place.  The cleaned
structure is re-flattened into `(namespace, [(group, opts)])` tuples. -/
def _cleanup_opts (read_opts : List (String × List (Option OptGroup × List Opt))) :
    List (String × List (Option OptGroup × List Opt)) :=
  let clean := read_opts.foldl
    (fun clean p =>
      let clean := odModify p.1 [] id clean
      p.2.foldl
        (fun clean q =>
          let clean := odModify p.1 [] (fun gm => odModify q.1 [] id gm) clean
          q.2.foldl
            (fun clean opt =>
              odModify p.1 []
                (fun gm => odModify q.1 [] (fun om => odSet opt.dest opt om) gm) clean)
            clean)
        clean)
    ([] : List (String × List (Option OptGroup × List (String × Opt))))
  clean.map (fun nsp => (nsp.1, nsp.2.map (fun gp => (gp.1, odValues gp.2))))

/-- `_get_raw_opts_loaders` (lines 312-332), recursion on the namespace
list carrying the `groups` memo dictionary and a fresh-uid counter for
`cfg.OptGroup(name)` constructions.  `env cls` models the value returned
by invoking the dynamically imported zero-argument callable `func()`
(line 331) — note the source invokes it right here, while building the
loader list. -/
def rawLoadersAux (env : String → List Opt) :
    List String → List (String × OptGroup) → Nat →
    Except String (List (String × List (Option OptGroup × List Opt)))
  | [], _, _ => Except.ok []
  | ns :: rest, groups, fresh => do
    let p ← pySplitColon ns
    if pyLower p.1 = "default" then do
      let tail ← rawLoadersAux env rest groups fresh
      Except.ok (("DEFAULT", [(Option.none, env p.2)]) :: tail)
    else
      match odGet p.1 groups with
      | Option.some g => do
        let tail ← rawLoadersAux env rest groups fresh
        Except.ok ((p.1, [(Option.some g, env p.2)]) :: tail)
      | Option.none => do
        let g : OptGroup := ⟨p.1, fresh, Option.none⟩
        let tail ← rawLoadersAux env rest (groups ++ [(p.1, g)]) (fresh + 1)
        Except.ok ((p.1, [(Option.some g, env p.2)]) :: tail)

/-- `_get_raw_opts_loaders(namespaces)` with an empty memo and counter. -/
def _get_raw_opts_loaders (env : String → List Opt) (namespaces : List String) :
    Except String (List (String × List (Option OptGroup × List Opt))) :=
  rawLoadersAux env namespaces [] 0

/-- The `names` set built by `_update_defaults` (lines 337-340), as an
insertion-ordered duplicate-free list. -/
def collectNamesAux (acc : List String) : List String → Except String (List String)
  | [] => Except.ok acc
  | ns :: rest => do
    let p ← pySplitColon ns
    collectNamesAux (setAdd acc p.1) rest

/-- `names = set(); for namespace in namespaces: names.add(name)`. -/
def collectNames (namespaces : List String) : Except String (List String) :=
  collectNamesAux [] namespaces

/-- The update loop of `_update_defaults` (lines 341-346): an update is
invoked only when its source name is still in `names`, and the matched
name is removed afterwards.  Returns the `(name, locator)` pairs of the
update hooks actually invoked, in invocation order. -/
def runUpdates (names : List String) : List String → Except String (List (String × String))
  | [] => Except.ok []
  | u :: rest => do
    let p ← pySplitColon u
    if p.1 ∈ names then do
      let tail ← runUpdates (names.erase p.1) rest
      Except.ok (p :: tail)
    else
      runUpdates names rest

/-- `_update_defaults(namespaces, updates)` (lines 335-346), returning
the invoked update hooks. -/
def _update_defaults (namespaces updates : List String) :
    Except String (List (String × String)) := do
  let names ← collectNames namespaces
  runUpdates names updates

/-- `_list_opts(namespaces, updates)` (lines 349-370): the loaders are
materialised first (`_get_raw_opts_loaders` already invoked every
`func()`), then `_update_defaults` runs, then the already-read listing is
cleaned. -/
def _list_opts (env : String → List Opt) (namespaces updates : List String) :
    Except String (List (String × List (Option OptGroup × List Opt))) := do
  let loaders ← _get_raw_opts_loaders env namespaces
  let _ ← _update_defaults namespaces updates
  Except.ok (_cleanup_opts loaders)

/-- An invocation of an external callable during `_list_opts`. -/
inductive GenEvent where
  | listOptions (source : String)
  | updateHook (source : String)
deriving DecidableEq

/-- The option-listing callable invocations performed while
`_get_raw_opts_loaders` builds its list: one `func()` call per namespace,
in namespace order (line 331). -/
def loadersTrace : List String → Except String (List GenEvent)
  | [] => Except.ok []
  | ns :: rest => do
    let p ← pySplitColon ns
    let tail ← loadersTrace rest
    Except.ok (GenEvent.listOptions p.1 :: tail)

/-- The chronological trace of external callable invocations performed by
`_list_opts` (lines 357-360): first every namespace loader `func()`
inside `_get_raw_opts_loaders`, only afterwards the update hooks run by
`_update_defaults`. -/
def _list_opts_trace (namespaces updates : List String) : Except String (List GenEvent) := do
  let reads ← loadersTrace namespaces
  let invoked ← _update_defaults namespaces updates
  Except.ok (reads ++ invoked.map (fun p => GenEvent.updateHook p.1))

/-- `_output_opts(f, group, namespaces)` (lines 377-389): the section
header, then for each namespace (sorted by name) a banner comment and the
namespace's options; an option whose `format` raises gets a two-line
warning instead of its sample. -/
def renderOpt (f : OptFormatter) (opt : Opt) : List String :=
  "\n" :: (match format f opt with
    | Except.ok ls => ls
    | Except.error err =>
      ["# Warning: Failed to format sample for " ++ opt.dest ++ "\n",
       "# " ++ err ++ "\n"])

/-- The `'\n#\n# From %s\n#\n'` banner written before a namespace's
options (line 381). -/
def bannerOf (ns : String) : String :=
  "\n#\n# From " ++ ns ++ "\n#\n"

/-- The full write sequence of `_output_opts` (lines 377-389). -/
def _output_opts (f : OptFormatter) (group : SectionKey)
    (namespaces : List (String × List Opt)) : List String :=
  format_group f group ++
    catMap (fun p => bannerOf p.1 :: catMap (renderOpt f) p.2)
      (sortS (keyLt Prod.fst) namespaces)

/-- `_get_group_name(item)` (lines 392-398). -/
def _get_group_name (item : SectionKey × List (String × List Opt)) : String :=
  match item.1 with
  | SectionKey.group g => g.name
  | SectionKey.str s => s

/-- `group or 'DEFAULT'` on a raw listing's group. -/
def sectionKeyOf : Option OptGroup → SectionKey
  | Option.none => SectionKey.str "DEFAULT"
  | Option.some g => SectionKey.group g

/-- `_get_groups(conf_ns)` (lines 401-409): the section dictionary,
seeded with `{'DEFAULT': []}`; empty option lists are skipped, everything
else is appended to its section's namespace list. -/
def _get_groups (conf_ns : List (String × List (Option OptGroup × List Opt))) :
    List (SectionKey × List (String × List Opt)) :=
  conf_ns.foldl
    (fun groups p =>
      p.2.foldl
        (fun groups q =>
          if q.2.isEmpty then groups
          else odModify (sectionKeyOf q.1) [] (fun l => l ++ [(p.1, q.2)]) groups)
        groups)
    [(SectionKey.str "DEFAULT", [])]

/-- The write sequence of `generate` (lines 412-436) from the aggregated
listing on: the `'DEFAULT'` section is popped and emitted first, the
remaining sections follow sorted by `_get_group_name`, each preceded by
`'\n\n'`. -/
def generate (f : OptFormatter) (conf_ns : List (String × List (Option OptGroup × List Opt))) :
    List String :=
  let groups := _get_groups conf_ns
  _output_opts f (SectionKey.str "DEFAULT") (odGetD (SectionKey.str "DEFAULT") [] groups) ++
    catMap (fun p => "\n\n" :: _output_opts f p.1 p.2)
      (sortS (keyLt _get_group_name) (odErase (SectionKey.str "DEFAULT") groups))

/-- A whole generation run: `generate` composed with `_list_opts`
(line 428). -/
def generateRun (f : OptFormatter) (env : String → List Opt)
    (namespaces updates : List String) : Except String (List String) := do
  let cns ← _list_opts env namespaces updates
  Except.ok (generate f cns)

/-! ## General lemmas -/

@[simp] theorem catMap_nil {α β : Type} (f : α → List β) : catMap f [] = [] := rfl

@[simp] theorem catMap_cons {α β : Type} (f : α → List β) (a : α) (l : List α) :
    catMap f (a :: l) = f a ++ catMap f l := rfl

theorem catMap_append {α β : Type} (f : α → List β) (l₁ l₂ : List α) :
    catMap f (l₁ ++ l₂) = catMap f l₁ ++ catMap f l₂ := by
  induction l₁ with
  | nil => simp
  | cons a l ih => simp [ih]

theorem chLt_asymm : ∀ (a b : List Char), chLt a b = true → chLt b a = false
  | [], [] => by simp [chLt]
  | [], _ :: _ => by simp [chLt]
  | _ :: _, [] => by simp [chLt]
  | a :: as, b :: bs => by
    simp only [chLt]
    by_cases h1 : a.toNat < b.toNat
    · have h2 : ¬ b.toNat < a.toNat := by omega
      simp [h1, h2]
    · by_cases h2 : b.toNat < a.toNat
      · simp [h1, h2]
      · simp [h1, h2]
        exact chLt_asymm as bs

theorem chLt_conn : ∀ (a b : List Char), chLt a b = false → chLt b a = false → a = b
  | [], [] => by simp
  | [], _ :: _ => by simp [chLt]
  | _ :: _, [] => by simp [chLt]
  | a :: as, b :: bs => by
    simp only [chLt]
    by_cases h1 : a.toNat < b.toNat
    · simp [h1]
    · by_cases h2 : b.toNat < a.toNat
      · have h3 : ¬ b.toNat < a.toNat → False := fun h => h h2
        simp [h1, h2]
      · simp [h1, h2]
        intro hab hba
        have hval : a.toNat = b.toNat := by omega
        have hc : a = b := Char.ext (UInt32.ext hval)
        exact ⟨hc, chLt_conn as bs hab hba⟩

theorem chLt_compl_trans :
    ∀ (a b c : List Char), chLt a b = false → chLt b c = false → chLt a c = false
  | [], [], [] => by simp [chLt]
  | [], [], _ :: _ => by simp [chLt]
  | [], _ :: _, _ => by simp [chLt]
  | _ :: _, [], [] => by simp [chLt]
  | _ :: _, [], _ :: _ => by simp [chLt]
  | _ :: _, _ :: _, [] => by simp [chLt]
  | a :: as, b :: bs, c :: cs => by
    simp only [chLt]
    by_cases h1 : a.toNat < b.toNat
    · simp [h1]
    · by_cases h2 : b.toNat < c.toNat
      · simp [h1, h2]
      · by_cases h3 : a.toNat < c.toNat
        · omega
        · by_cases h4 : c.toNat < a.toNat
          · simp [h1, h2, h3, h4]
          · by_cases h5 : b.toNat < a.toNat
            · omega
            · by_cases h6 : c.toNat < b.toNat
              · omega
              · simp [h1, h2, h3, h4, h5, h6]
                exact chLt_compl_trans as bs cs

theorem string_data_ext {s t : String} (h : s.data = t.data) : s = t := by
  cases s with
  | mk d1 =>
    cases t with
    | mk d2 => exact congrArg String.mk h

theorem keyLt_asymm {α : Type} (key : α → String) (a b : α) :
    keyLt key a b = true → keyLt key b a = false :=
  fun h => chLt_asymm _ _ h

theorem keyLt_conn {α : Type} (key : α → String) (a b : α)
    (h1 : keyLt key a b = false) (h2 : keyLt key b a = false) : key a = key b := by
  have hd : (key a).data = (key b).data := chLt_conn _ _ h1 h2
  cases hka : key a
  cases hkb : key b
  simp only [hka, hkb] at hd
  simp [hd]

theorem keyLt_compl_trans {α : Type} (key : α → String) (a b c : α)
    (h1 : keyLt key a b = false) (h2 : keyLt key b c = false) : keyLt key a c = false :=
  chLt_compl_trans _ _ _ h1 h2

theorem insertS_perm {α : Type} (lt : α → α → Bool) (x : α) :
    ∀ l : List α, List.Perm (insertS lt x l) (x :: l) := by
  intro l
  induction l with
  | nil => simp [insertS]
  | cons y ys ih =>
    simp only [insertS]
    by_cases h : lt y x = true
    · rw [if_pos h]
      exact (ih.cons y).trans (List.Perm.swap x y ys)
    · rw [if_neg h]

theorem sortS_perm {α : Type} (lt : α → α → Bool) :
    ∀ l : List α, List.Perm (sortS lt l) l := by
  intro l
  induction l with
  | nil => simp [sortS]
  | cons x xs ih =>
    exact (insertS_perm lt x (sortS lt xs)).trans (ih.cons x)

theorem insertS_pairwise {α : Type} (key : α → String) (x : α) (l : List α)
    (h : l.Pairwise (fun a b => keyLt key b a = false)) :
    (insertS (keyLt key) x l).Pairwise (fun a b => keyLt key b a = false) := by
  induction l with
  | nil => simp [insertS]
  | cons y ys ih =>
    rw [List.pairwise_cons] at h
    simp only [insertS]
    by_cases hlt : keyLt key y x = true
    · rw [if_pos hlt, List.pairwise_cons]
      refine ⟨?_, ih h.2⟩
      intro z hz
      rcases List.mem_cons.mp (((insertS_perm (keyLt key) x ys).mem_iff).mp hz) with hzx | hzy
      · rw [hzx]
        exact keyLt_asymm key y x hlt
      · exact h.1 z hzy
    · have hlt' : keyLt key y x = false := by simpa using hlt
      rw [if_neg hlt, List.pairwise_cons, List.pairwise_cons]
      refine ⟨?_, h.1, h.2⟩
      intro z hz
      rcases List.mem_cons.mp hz with hzy | hzys
      · rw [hzy]
        exact hlt'
      · exact keyLt_compl_trans key z y x (h.1 z hzys) hlt'

theorem sortS_pairwise {α : Type} (key : α → String) :
    ∀ l : List α, (sortS (keyLt key) l).Pairwise (fun a b => keyLt key b a = false) := by
  intro l
  induction l with
  | nil => simp [sortS]
  | cons x xs ih => exact insertS_pairwise key x (sortS (keyLt key) xs) ih

/-- A stable sort's output is determined by the multiset of inputs when
the sort keys are duplicate-free: two permutations of the same list sort
to the same result. -/
theorem sortS_eq_of_perm {α : Type} (key : α → String) (l₁ l₂ : List α)
    (hp : List.Perm l₁ l₂) (hnd : (l₁.map key).Nodup) :
    sortS (keyLt key) l₁ = sortS (keyLt key) l₂ := by
  have hS : ∀ l : List α, (l.map key).Nodup →
      (sortS (keyLt key) l).Pairwise (fun a b => keyLt key a b = true) := by
    intro l hl
    have hne : l.Pairwise (fun a b => key a ≠ key b) := List.pairwise_map.mp hl
    have hne' : (sortS (keyLt key) l).Pairwise (fun a b => key a ≠ key b) := by
      exact ((sortS_perm (keyLt key) l).pairwise_iff (fun hab => Ne.symm hab)).mpr hne
    have hle := sortS_pairwise key l
    refine (hle.and hne').imp ?_
    rintro a b ⟨hba, hab⟩
    by_contra hfalse
    exact hab (keyLt_conn key a b (by simpa using hfalse) hba)
  haveI : IsAntisymm α (fun a b => keyLt key a b = true) :=
    ⟨fun a b h1 h2 => absurd (keyLt_asymm key a b h1) (by simp [h2])⟩
  have hnd₂ : (l₂.map key).Nodup := ((hp.map key).nodup_iff).mp hnd
  exact List.eq_of_perm_of_sorted
    ((sortS_perm (keyLt key) l₁).trans (hp.trans (sortS_perm (keyLt key) l₂).symm))
    (hS l₁ hnd) (hS l₂ hnd₂)

/-! ## Lemmas on the update-hook runner -/

@[simp] theorem exceptBind_ok {α β : Type} (a : α) (f : α → Except String β) :
    (Except.ok a >>= f) = f a := rfl

@[simp] theorem exceptBind_error {α β : Type} (e : String) (f : α → Except String β) :
    ((Except.error e : Except String α) >>= f) = Except.error e := rfl

theorem setAdd_nodup (l : List String) (x : String) (h : l.Nodup) : (setAdd l x).Nodup := by
  unfold setAdd
  by_cases hx : x ∈ l
  · simpa [hx] using h
  · simp [hx, List.nodup_append, h]

theorem setAdd_mem (l : List String) (x y : String) :
    y ∈ setAdd l x ↔ y ∈ l ∨ y = x := by
  unfold setAdd
  by_cases hx : x ∈ l
  · simp only [hx, if_true]
    constructor
    · exact Or.inl
    · rintro (h | h)
      · exact h
      · rw [h]
        exact hx
  · simp [hx]

theorem collectNamesAux_nodup :
    ∀ (namespaces : List String) (acc names : List String),
      acc.Nodup → collectNamesAux acc namespaces = Except.ok names → names.Nodup
  | [], acc, names, hacc, h => by
    simp only [collectNamesAux] at h
    cases h
    exact hacc
  | ns :: rest, acc, names, hacc, h => by
    simp only [collectNamesAux] at h
    cases hs : pySplitColon ns with
    | error e =>
      rw [hs] at h
      simp only [exceptBind_error] at h
      exact Except.noConfusion h
    | ok p =>
      rw [hs] at h
      simp only [exceptBind_ok] at h
      exact collectNamesAux_nodup rest (setAdd acc p.1) names (setAdd_nodup acc p.1 hacc) h

theorem collectNamesAux_mem :
    ∀ (namespaces : List String) (acc names : List String),
      collectNamesAux acc namespaces = Except.ok names →
      ∀ s, s ∈ names ↔ s ∈ acc ∨ ∃ ns ∈ namespaces, ∃ c, pySplitColon ns = Except.ok (s, c)
  | [], acc, names, h, s => by
    simp only [collectNamesAux] at h
    cases h
    simp
  | ns :: rest, acc, names, h, s => by
    simp only [collectNamesAux] at h
    cases hs : pySplitColon ns with
    | error e =>
      rw [hs] at h
      simp only [exceptBind_error] at h
      exact Except.noConfusion h
    | ok p =>
      rw [hs] at h
      simp only [exceptBind_ok] at h
      rw [collectNamesAux_mem rest (setAdd acc p.1) names h s, setAdd_mem]
      constructor
      · rintro ((hmem | hp) | ⟨ns0, hns0, c, hc⟩)
        · exact Or.inl hmem
        · exact Or.inr ⟨ns, List.mem_cons_self ns rest, p.2, by rw [hp, hs]⟩
        · exact Or.inr ⟨ns0, List.mem_cons_of_mem ns hns0, c, hc⟩
      · rintro (hmem | ⟨ns0, hns0, c, hc⟩)
        · exact Or.inl (Or.inl hmem)
        · rcases List.mem_cons.mp hns0 with hhead | htail
          · rw [hhead] at hc
            rw [hc] at hs
            cases hs
            exact Or.inl (Or.inr rfl)
          · exact Or.inr ⟨ns0, htail, c, hc⟩

theorem collectNames_nodup (namespaces names : List String)
    (h : collectNames namespaces = Except.ok names) : names.Nodup :=
  collectNamesAux_nodup namespaces [] names List.nodup_nil h

theorem collectNames_mem (namespaces names : List String)
    (h : collectNames namespaces = Except.ok names) (s : String) :
    s ∈ names ↔ ∃ ns ∈ namespaces, ∃ c, pySplitColon ns = Except.ok (s, c) := by
  rw [collectNamesAux_mem namespaces [] names h s]
  simp

theorem runUpdates_mem :
    ∀ (names : List String) (updates : List String) (out : List (String × String)),
      runUpdates names updates = Except.ok out → ∀ p ∈ out, p.1 ∈ names
  | names, [], out, h, p, hp => by
    simp only [runUpdates] at h
    cases h
    cases hp
  | names, u :: rest, out, h, p, hp => by
    simp only [runUpdates] at h
    cases hs : pySplitColon u with
    | error e =>
      rw [hs] at h
      simp only [exceptBind_error] at h
      exact Except.noConfusion h
    | ok q =>
      rw [hs] at h
      simp only [exceptBind_ok] at h
      by_cases hmem : q.1 ∈ names
      · rw [if_pos hmem] at h
        cases ht : runUpdates (names.erase q.1) rest with
        | error e =>
          rw [ht] at h
          simp only [exceptBind_error] at h
          exact Except.noConfusion h
        | ok tail =>
          rw [ht] at h
          simp only [exceptBind_ok, Except.ok.injEq] at h
          rw [← h] at hp
          rcases List.mem_cons.mp hp with hph | hpt
          · rw [hph]
            exact hmem
          · exact List.mem_of_mem_erase (runUpdates_mem _ rest tail ht p hpt)
      · rw [if_neg hmem] at h
        exact runUpdates_mem names rest out h p hp

theorem runUpdates_sublist :
    ∀ (names : List String) (updates : List String) (out : List (String × String)),
      runUpdates names updates = Except.ok out →
      out.Sublist (updates.filterMap (fun u => (pySplitColon u).toOption))
  | names, [], out, h => by
    simp only [runUpdates] at h
    cases h
    simp
  | names, u :: rest, out, h => by
    simp only [runUpdates] at h
    cases hs : pySplitColon u with
    | error e =>
      rw [hs] at h
      simp only [exceptBind_error] at h
      exact Except.noConfusion h
    | ok q =>
      rw [hs] at h
      simp only [exceptBind_ok] at h
      simp only [List.filterMap_cons, hs, Except.toOption]
      by_cases hmem : q.1 ∈ names
      · rw [if_pos hmem] at h
        cases ht : runUpdates (names.erase q.1) rest with
        | error e =>
          rw [ht] at h
          simp only [exceptBind_error] at h
          exact Except.noConfusion h
        | ok tail =>
          rw [ht] at h
          simp only [exceptBind_ok, Except.ok.injEq] at h
          rw [← h]
          exact List.Sublist.cons₂ q (runUpdates_sublist _ rest tail ht)
      · rw [if_neg hmem] at h
        exact List.Sublist.cons q (runUpdates_sublist names rest out h)

theorem runUpdates_count_one :
    ∀ (names : List String) (updates : List String) (out : List (String × String)) (s : String),
      names.Nodup → s ∈ names →
      (∃ u ∈ updates, ∃ c, pySplitColon u = Except.ok (s, c)) →
      runUpdates names updates = Except.ok out →
      out.countP (fun p => decide (p.1 = s)) = 1
  | names, [], out, s, hnd, hs, hex, h => by
    rcases hex with ⟨u, hu, _⟩
    cases hu
  | names, u :: rest, out, s, hnd, hs, hex, h => by
    simp only [runUpdates] at h
    cases hsp : pySplitColon u with
    | error e =>
      rw [hsp] at h
      simp only [exceptBind_error] at h
      exact Except.noConfusion h
    | ok q =>
      rw [hsp] at h
      simp only [exceptBind_ok] at h
      by_cases hmem : q.1 ∈ names
      · rw [if_pos hmem] at h
        cases ht : runUpdates (names.erase q.1) rest with
        | error e =>
          rw [ht] at h
          simp only [exceptBind_error] at h
          exact Except.noConfusion h
        | ok tail =>
          rw [ht] at h
          simp only [exceptBind_ok, Except.ok.injEq] at h
          rw [← h]
          by_cases hqs : q.1 = s
          · have hzero : tail.countP (fun p => decide (p.1 = s)) = 0 := by
              rw [List.countP_eq_zero]
              intro p hp
              have hpe : p.1 ∈ names.erase q.1 := runUpdates_mem _ rest tail ht p hp
              have hsne : s ∉ names.erase q.1 := by
                rw [hqs]
                exact hnd.not_mem_erase
              simp only [decide_eq_true_eq]
              intro hps
              rw [hps] at hpe
              exact hsne hpe
            simp [List.countP_cons, hqs, hzero]
          · have hsmem : s ∈ names.erase q.1 :=
              (List.mem_erase_of_ne (fun hh => hqs hh.symm)).mpr hs
            have hex' : ∃ u0 ∈ rest, ∃ c, pySplitColon u0 = Except.ok (s, c) := by
              rcases hex with ⟨u0, hu0, c, hc⟩
              rcases List.mem_cons.mp hu0 with hh | htl
              · rw [hh] at hc
                rw [hc] at hsp
                cases hsp
                exact absurd rfl hqs
              · exact ⟨u0, htl, c, hc⟩
            have hcnt := runUpdates_count_one (names.erase q.1) rest tail s
              (hnd.erase q.1) hsmem hex' ht
            simp [List.countP_cons, hqs, hcnt]
      · rw [if_neg hmem] at h
        by_cases hqs : q.1 = s
        · rw [hqs] at hmem
          exact absurd hs hmem
        · have hex' : ∃ u0 ∈ rest, ∃ c, pySplitColon u0 = Except.ok (s, c) := by
            rcases hex with ⟨u0, hu0, c, hc⟩
            rcases List.mem_cons.mp hu0 with hh | htl
            · rw [hh] at hc
              rw [hc] at hsp
              cases hsp
              exact absurd rfl hqs
            · exact ⟨u0, htl, c, hc⟩
          exact runUpdates_count_one names rest out s hnd hs hex' h

/-! ## Lemmas on the ordered-dictionary aggregator -/

theorem odSet_not_mem {K V : Type} [DecidableEq K] (k : K) (v : V) :
    ∀ d : List (K × V), k ∉ d.map Prod.fst → odSet k v d = d ++ [(k, v)]
  | [], _ => rfl
  | (k0, v0) :: rest, h => by
    have hne : k0 ≠ k := by
      intro hk
      exact h (by simp [hk])
    simp only [odSet, if_neg hne, List.cons_append, List.cons.injEq, true_and]
    exact odSet_not_mem k v rest (fun hm => h (by simp [hm]))

theorem odSet_mem_middle {K V : Type} [DecidableEq K] (k : K) (v v0 : V) :
    ∀ (d1 : List (K × V)) (d2 : List (K × V)), k ∉ d1.map Prod.fst →
      odSet k v (d1 ++ (k, v0) :: d2) = d1 ++ (k, v) :: d2
  | [], d2, _ => by simp [odSet]
  | (k1, v1) :: rest, d2, h => by
    have hne : k1 ≠ k := by
      intro hk
      exact h (by simp [hk])
    simp only [List.cons_append, odSet, if_neg hne, List.cons.injEq, true_and]
    exact odSet_mem_middle k v v0 rest d2 (fun hm => h (by simp [hm]))

theorem odSetAll_fresh :
    ∀ (opts : List Opt) (m : List (String × Opt)),
      (∀ o ∈ opts, o.dest ∉ m.map Prod.fst) → (opts.map Opt.dest).Nodup →
      opts.foldl (fun m o => odSet o.dest o m) m = m ++ opts.map (fun o => (o.dest, o))
  | [], m, _, _ => by simp
  | o :: rest, m, hfresh, hnd => by
    simp only [List.foldl_cons]
    rw [odSet_not_mem o.dest o m (hfresh o (List.mem_cons_self o rest))]
    rw [List.map_cons, List.nodup_cons] at hnd
    rw [odSetAll_fresh rest (m ++ [(o.dest, o)]) ?_ hnd.2]
    · simp
    · intro o' ho'
      simp only [List.map_append, List.mem_append, List.map_cons]
      rintro (hm | hh)
      · exact hfresh o' (List.mem_cons_of_mem o ho') hm
      · simp only [List.map_nil, List.mem_singleton] at hh
        exact hnd.1 (hh ▸ List.mem_map_of_mem Opt.dest ho')

theorem cleanup_single (ns : String) (g : Option OptGroup) :
    ∀ (opts : List Opt) (om : List (String × Opt)),
      opts.foldl
        (fun clean opt =>
          odModify ns []
            (fun gm => odModify g [] (fun om => odSet opt.dest opt om) gm) clean)
        [(ns, [(g, om)])] =
      [(ns, [(g, opts.foldl (fun m o => odSet o.dest o m) om)])]
  | [], om => rfl
  | o :: rest, om => by
    simp only [List.foldl_cons, odModify, if_pos rfl]
    exact cleanup_single ns g rest (odSet o.dest o om)

theorem cleanup_opts_single (ns : String) (g : Option OptGroup) (opts : List Opt) :
    _cleanup_opts [(ns, [(g, opts)])] =
      [(ns, [(g, odValues (opts.foldl (fun m o => odSet o.dest o m) []))])] := by
  unfold _cleanup_opts
  simp only [List.foldl_cons, List.foldl_nil]
  have hseed :
      odModify ns [] (fun gm => odModify g [] id gm)
          (odModify ns [] id
            ([] : List (String × List (Option OptGroup × List (String × Opt))))) =
        [(ns, [(g, [])])] := by
    simp [odModify]
  rw [hseed, cleanup_single ns g opts []]
  rfl

/-! ## Lemmas on the namespace loader -/

theorem odGet_mem {K V : Type} [DecidableEq K] (k : K) :
    ∀ (d : List (K × V)) (v : V), odGet k d = Option.some v → (k, v) ∈ d
  | [], v, h => by simp [odGet] at h
  | (k0, v0) :: rest, v, h => by
    simp only [odGet] at h
    by_cases hk : k0 = k
    · rw [if_pos hk] at h
      injection h with h2
      rw [← hk, ← h2]
      exact List.mem_cons_self _ _
    · rw [if_neg hk] at h
      exact List.mem_cons_of_mem _ (odGet_mem k rest v h)

theorem odGet_none {K V : Type} [DecidableEq K] (k : K) :
    ∀ d : List (K × V), odGet k d = Option.none → k ∉ d.map Prod.fst
  | [], _ => by simp
  | (k0, v0) :: rest, h => by
    simp only [odGet] at h
    by_cases hk : k0 = k
    · rw [if_pos hk] at h
      exact Option.noConfusion h
    · rw [if_neg hk] at h
      simp only [List.map_cons, List.mem_cons]
      rintro (hh | hm)
      · exact hk hh.symm
      · exact odGet_none k rest h hm

theorem nodup_keys_functional {K V : Type} :
    ∀ l : List (K × V), (l.map Prod.fst).Nodup →
      ∀ (k : K) (v1 v2 : V), (k, v1) ∈ l → (k, v2) ∈ l → v1 = v2
  | [], _, k, v1, v2, h1, _ => by cases h1
  | (k0, u) :: rest, hnd, k, v1, v2, h1, h2 => by
    rw [List.map_cons, List.nodup_cons] at hnd
    rcases List.mem_cons.mp h1 with hh1 | ht1 <;> rcases List.mem_cons.mp h2 with hh2 | ht2
    · rw [Prod.mk.injEq] at hh1 hh2
      rw [hh1.2, hh2.2]
    · rw [Prod.mk.injEq] at hh1
      exact absurd (hh1.1 ▸ List.mem_map_of_mem Prod.fst ht2 :) (hh1.1 ▸ hnd.1)
    · rw [Prod.mk.injEq] at hh2
      exact absurd (hh2.1 ▸ List.mem_map_of_mem Prod.fst ht1 :) (hh2.1 ▸ hnd.1)
    · exact nodup_keys_functional rest hnd.2 k v1 v2 ht1 ht2

/-- The per-namespace contract of `_get_raw_opts_loaders` on one
identifier: it splits into `(n, locator)`; a name that case-insensitively
equals `default` is canonicalized to the `DEFAULT` marker with no group
object; any other name yields an entry keyed by the name carrying a group
object named after it (with no help). -/
def nsEntry (env : String → List Opt) (ns : String)
    (entry : String × List (Option OptGroup × List Opt)) : Prop :=
  ∃ n c, pySplitColon ns = Except.ok (n, c) ∧
    ((pyLower n = "default" ∧ entry = ("DEFAULT", [(Option.none, env c)])) ∨
     (pyLower n ≠ "default" ∧ ∃ g : OptGroup,
        g.name = n ∧ g.help = Option.none ∧ entry = (n, [(Option.some g, env c)])))

theorem rawLoadersAux_spec (env : String → List Opt) :
    ∀ (nss : List String) (memo : List (String × OptGroup)) (fresh : Nat),
      (∀ ns ∈ nss, ∃ n c, pySplitColon ns = Except.ok (n, c)) →
      (∀ q ∈ memo, (q : String × OptGroup).2.name = q.1) →
      (∀ q ∈ memo, (q : String × OptGroup).2.help = Option.none) →
      (memo.map Prod.fst).Nodup →
      ∃ out memoNew,
        rawLoadersAux env nss memo fresh = Except.ok out ∧
        List.Forall₂ (nsEntry env) nss out ∧
        (∀ q ∈ memoNew, (q : String × OptGroup).2.name = q.1) ∧
        (memoNew.map Prod.fst).Nodup ∧
        (∃ ext, memoNew = memo ++ ext) ∧
        (∀ e ∈ out, ∀ (g : OptGroup) (opts : List Opt),
          (Option.some g, opts) ∈ e.2 → (g.name, g) ∈ memoNew)
  | [], memo, fresh, _, hname, _, hnd => by
    refine ⟨[], memo, rfl, List.Forall₂.nil, hname, hnd, ⟨[], by simp⟩, ?_⟩
    intro e he
    cases he
  | ns :: rest, memo, fresh, hwf, hname, hhelp, hnd => by
    obtain ⟨n, c, hs⟩ := hwf ns (List.mem_cons_self ns rest)
    have hwfrest : ∀ ns0 ∈ rest, ∃ n0 c0, pySplitColon ns0 = Except.ok (n0, c0) :=
      fun ns0 h0 => hwf ns0 (List.mem_cons_of_mem ns h0)
    simp only [rawLoadersAux, hs, exceptBind_ok]
    by_cases hdef : pyLower n = "default"
    · rw [if_pos hdef]
      obtain ⟨out, memoNew, hok, hfa, hname2, hnd2, hext, hmem2⟩ :=
        rawLoadersAux_spec env rest memo fresh hwfrest hname hhelp hnd
      rw [hok]
      simp only [exceptBind_ok]
      refine ⟨("DEFAULT", [(Option.none, env c)]) :: out, memoNew, rfl,
        List.Forall₂.cons ⟨n, c, hs, Or.inl ⟨hdef, rfl⟩⟩ hfa, hname2, hnd2, hext, ?_⟩
      intro e he g opts hg
      rcases List.mem_cons.mp he with hh | ht
      · rw [hh] at hg
        simp only [List.mem_singleton, Prod.mk.injEq] at hg
        exact Option.noConfusion hg.1
      · exact hmem2 e ht g opts hg
    · rw [if_neg hdef]
      cases hget : odGet n memo with
      | some g =>
        obtain ⟨out, memoNew, hok, hfa, hname2, hnd2, hext, hmem2⟩ :=
          rawLoadersAux_spec env rest memo fresh hwfrest hname hhelp hnd
        rw [hok]
        simp only [exceptBind_ok]
        have hgmem : (n, g) ∈ memo := odGet_mem n memo g hget
        have hgname : g.name = n := hname (n, g) hgmem
        have hghelp : g.help = Option.none := hhelp (n, g) hgmem
        refine ⟨(n, [(Option.some g, env c)]) :: out, memoNew, rfl,
          List.Forall₂.cons ⟨n, c, hs, Or.inr ⟨hdef, g, hgname, hghelp, rfl⟩⟩ hfa,
          hname2, hnd2, hext, ?_⟩
        intro e he g1 opts hg1
        rcases List.mem_cons.mp he with hh | ht
        · rw [hh] at hg1
          simp only [List.mem_singleton, Prod.mk.injEq] at hg1
          obtain ⟨ext, hmext⟩ := hext
          rw [hmext]
          have : g1 = g := Option.some.inj hg1.1
          rw [this, hgname]
          exact List.mem_append_left ext hgmem
        · exact hmem2 e ht g1 opts hg1
      | none =>
        have hfreshkey : n ∉ memo.map Prod.fst := odGet_none n memo hget
        have hname' : ∀ q ∈ memo ++ [(n, (⟨n, fresh, Option.none⟩ : OptGroup))],
            (q : String × OptGroup).2.name = q.1 := by
          intro q hq
          rcases List.mem_append.mp hq with hm | hm
          · exact hname q hm
          · simp only [List.mem_singleton] at hm
            rw [hm]
        have hhelp' : ∀ q ∈ memo ++ [(n, (⟨n, fresh, Option.none⟩ : OptGroup))],
            (q : String × OptGroup).2.help = Option.none := by
          intro q hq
          rcases List.mem_append.mp hq with hm | hm
          · exact hhelp q hm
          · simp only [List.mem_singleton] at hm
            rw [hm]
        have hnd' : ((memo ++ [(n, (⟨n, fresh, Option.none⟩ : OptGroup))]).map
            Prod.fst).Nodup := by
          simp only [List.map_append, List.map_cons, List.map_nil]
          rw [List.nodup_append]
          exact ⟨hnd, List.nodup_singleton n, by
            intro a ha hb
            simp only [List.mem_singleton] at hb
            rw [hb] at ha
            exact hfreshkey ha⟩
        obtain ⟨out, memoNew, hok, hfa, hname2, hnd2, hext, hmem2⟩ :=
          rawLoadersAux_spec env rest (memo ++ [(n, ⟨n, fresh, Option.none⟩)]) (fresh + 1)
            hwfrest hname' hhelp' hnd'
        rw [hok]
        simp only [exceptBind_ok]
        refine ⟨(n, [(Option.some ⟨n, fresh, Option.none⟩, env c)]) :: out, memoNew, rfl,
          List.Forall₂.cons ⟨n, c, hs,
            Or.inr ⟨hdef, ⟨n, fresh, Option.none⟩, rfl, rfl, rfl⟩⟩ hfa,
          hname2, hnd2, ?_, ?_⟩
        · obtain ⟨ext, hmext⟩ := hext
          exact ⟨(n, ⟨n, fresh, Option.none⟩) :: ext, by rw [hmext]; simp⟩
        · intro e he g1 opts hg1
          rcases List.mem_cons.mp he with hh | ht
          · rw [hh] at hg1
            simp only [List.mem_singleton, Prod.mk.injEq] at hg1
            obtain ⟨ext, hmext⟩ := hext
            rw [hmext]
            have hg1eq : g1 = ⟨n, fresh, Option.none⟩ := Option.some.inj hg1.1
            rw [hg1eq]
            exact List.mem_append_left ext (List.mem_append_right memo (by simp))
          · exact hmem2 e ht g1 opts hg1

/-! ## Section-header analysis of the written output

Every string the generator writes starts with `[` (exactly the
`format_group` header line), `#`, `\n`, or is empty.  Filtering the
written strings for a leading `[` therefore recovers precisely the
sequence of section headers, in emission order. -/

/-- First character of a written string. -/
def headChar (s : String) : Option Char :=
  s.data.head?

/-- The section headers among the written strings, in order. -/
def headersOf (lines : List String) : List String :=
  lines.filter (fun s => decide (headChar s = Option.some '['))

/-- The header line `format_group` writes for a section dictionary key. -/
def sectionHeader : SectionKey → String
  | SectionKey.str s => "[" ++ s ++ "]\n"
  | SectionKey.group g => "[" ++ g.name ++ "]\n"

/-- The wrapping collaborator behaves like `textwrap.wrap` with a `# `
indent: the joined output for a line is empty or starts with `#`. -/
def WrapOk (f : OptFormatter) : Prop :=
  ∀ (w : Int) (line : String),
    f.wrapJoin w line = "" ∨ headChar (f.wrapJoin w line) = Option.some '#'

theorem headChar_append (s t : String) (c : Char) (h : headChar s = Option.some c) :
    headChar (s ++ t) = Option.some c := by
  unfold headChar at h ⊢
  rw [String.data_append]
  cases hd : s.data with
  | nil =>
    rw [hd] at h
    exact Option.noConfusion h
  | cons a l =>
    rw [hd] at h
    simpa using h

theorem nonheader_append {s : String} (t : String) (c : Char)
    (h : headChar s = Option.some c) (hc : c ≠ '[') :
    headChar (s ++ t) ≠ Option.some '[' := by
  rw [headChar_append s t c h]
  intro he
  exact hc (Option.some.inj he)

theorem nonheader_all_append {L1 L2 : List String}
    (h1 : ∀ l ∈ L1, headChar l ≠ Option.some '[')
    (h2 : ∀ l ∈ L2, headChar l ≠ Option.some '[') :
    ∀ l ∈ L1 ++ L2, headChar l ≠ Option.some '[' := by
  intro l hl
  rcases List.mem_append.mp hl with h | h
  · exact h1 l h
  · exact h2 l h

theorem formatHelp_nonheader (f : OptFormatter) (hw : WrapOk f) (t : String) :
    ∀ l ∈ _format_help f t, headChar l ≠ Option.some '[' := by
  have hflatline : headChar ("# " ++ t ++ "\n") ≠ Option.some '[' :=
    nonheader_append "\n" '#' (headChar_append "# " t '#' rfl) (by decide)
  intro l hl
  unfold _format_help at hl
  cases hww : f.wrap_width with
  | none =>
    simp only [hww, List.mem_singleton] at hl
    rw [hl]
    exact hflatline
  | some w =>
    simp only [hww] at hl
    by_cases hpos : w > 0
    · rw [if_pos hpos, List.mem_singleton] at hl
      rw [hl]
      cases hsl : pySplitlines t with
      | nil =>
        intro he
        exact Option.noConfusion (he : headChar (strConcat (List.map _ [])) = _)
      | cons a rest =>
        have hp : headChar ((if f.wrapJoin w a = "" then "#" else f.wrapJoin w a) ++ "\n") =
            Option.some '#' := by
          by_cases he : f.wrapJoin w a = ""
          · rw [if_pos he]
            exact headChar_append "#" "\n" '#' rfl
          · rw [if_neg he]
            rcases hw w a with h0 | h0
            · exact absurd h0 he
            · exact headChar_append _ "\n" '#' h0
        simp only [List.map_cons]
        exact nonheader_append _ '#' hp (by decide)
    · rw [if_neg hpos, List.mem_singleton] at hl
      rw [hl]
      exact hflatline

theorem defaultLine_nonheader (dest s : String) :
    headChar (defaultLine dest s) ≠ Option.some '[' := by
  unfold defaultLine
  have h1 : headChar ("#" ++ dest) = Option.some '#' := headChar_append "#" dest '#' rfl
  have h2 : headChar ("#" ++ dest ++ " =") = Option.some '#' := headChar_append _ " =" '#' h1
  have h3 : headChar ("#" ++ dest ++ " =" ++ (if s = "" then "" else " " ++ s)) =
      Option.some '#' := headChar_append _ _ '#' h2
  exact nonheader_append "\n" '#' h3 (by decide)

theorem format_nonheader (f : OptFormatter) (hw : WrapOk f) (opt : Opt)
    (lines : List String) (h : format f opt = Except.ok lines) :
    ∀ l ∈ lines, headChar l ≠ Option.some '[' := by
  unfold format at h
  cases hmu : opt.mutable with
  | none =>
    rw [hmu] at h
    simp only [exceptBind_error] at h
    exact Except.noConfusion h
  | some b =>
    rw [hmu] at h
    simp only [exceptBind_ok] at h
    cases hfd : (match opt.type.format_defaults with
      | Option.some res => res
      | Option.none => _format_defaults opt) with
    | error e =>
      rw [hfd] at h
      simp only [exceptBind_error] at h
      exact Except.noConfusion h
    | ok ds =>
      rw [hfd] at h
      simp only [exceptBind_ok, Except.ok.injEq] at h
      rw [← h]
      have hA := formatHelp_nonheader f hw
        (if pyTruthyStr opt.help then
          (opt.help.getD "") ++ " (" ++ opt.type.type_name.getD "unknown value" ++ ")"
        else "(" ++ opt.type.type_name.getD "unknown value" ++ ")")
      have hB : ∀ l ∈ (match opt.type.min with
          | Option.some m => ["# Minimum value: " ++ toString m ++ "\n"]
          | Option.none => ([] : List String)), headChar l ≠ Option.some '[' := by
        intro l hl
        cases hm : opt.type.min with
        | none =>
          simp only [hm] at hl
          cases hl
        | some m =>
          simp only [hm, List.mem_singleton] at hl
          rw [hl]
          exact nonheader_append "\n" '#'
            (headChar_append "# Minimum value: " _ '#' rfl) (by decide)
      have hC : ∀ l ∈ (match opt.type.max with
          | Option.some m => ["# Maximum value: " ++ toString m ++ "\n"]
          | Option.none => ([] : List String)), headChar l ≠ Option.some '[' := by
        intro l hl
        cases hm : opt.type.max with
        | none =>
          simp only [hm] at hl
          cases hl
        | some m =>
          simp only [hm, List.mem_singleton] at hl
          rw [hl]
          exact nonheader_append "\n" '#'
            (headChar_append "# Maximum value: " _ '#' rfl) (by decide)
      have hD : ∀ l ∈ (match opt.type.choices with
          | Option.some cs =>
            if cs.isEmpty then ([] : List String)
            else ["# Allowed values: " ++ pyJoin ", " (cs.map _get_choice_text) ++ "\n"]
          | Option.none => ([] : List String)), headChar l ≠ Option.some '[' := by
        intro l hl
        cases hm : opt.type.choices with
        | none =>
          simp only [hm] at hl
          cases hl
        | some cs =>
          simp only [hm] at hl
          by_cases hcs : cs.isEmpty
          · rw [if_pos hcs] at hl
            cases hl
          · rw [if_neg hcs, List.mem_singleton] at hl
            rw [hl]
            exact nonheader_append "\n" '#'
              (headChar_append "# Allowed values: " _ '#' rfl) (by decide)
      have hF : ∀ l ∈ opt.deprecated_opts.map (fun d =>
          "# Deprecated group/name - [" ++ pyOrStr d.group "DEFAULT" ++ "]/" ++
            pyOrStr d.name opt.dest ++ "\n"), headChar l ≠ Option.some '[' := by
        intro l hl
        rcases List.mem_map.mp hl with ⟨d, _, hd⟩
        rw [← hd]
        have h1 : headChar ("# Deprecated group/name - [" ++ pyOrStr d.group "DEFAULT") =
            Option.some '#' := headChar_append _ _ '#' rfl
        have h2 := headChar_append _ ("]/") '#' h1
        have h3 := headChar_append _ (pyOrStr d.name opt.dest) '#' h2
        exact nonheader_append "\n" '#' h3 (by decide)
      have hG : ∀ l ∈ (if opt.deprecated_for_removal then
          ["# This option is deprecated for removal.\n# Its value may be silently ignored in the future.\n"] ++
            (if pyTruthyStr opt.deprecated_reason then
              _format_help f ("Reason: " ++ opt.deprecated_reason.getD "")
            else [])
          else ([] : List String)), headChar l ≠ Option.some '[' := by
        intro l hl
        by_cases hdr : opt.deprecated_for_removal
        · rw [if_pos hdr] at hl
          refine nonheader_all_append ?_ ?_ l hl
          · intro l2 hl2
            rw [List.mem_singleton] at hl2
            rw [hl2]
            intro he
            exact absurd (Option.some.inj he) (by decide)
          · intro l2 hl2
            by_cases hrsn : pyTruthyStr opt.deprecated_reason
            · rw [if_pos hrsn] at hl2
              exact formatHelp_nonheader f hw _ l2 hl2
            · rw [if_neg hrsn] at hl2
              cases hl2
        · rw [if_neg hdr] at hl
          cases hl
      have hH : ∀ l ∈ ds.map (defaultLine opt.dest), headChar l ≠ Option.some '[' := by
        intro l hl
        rcases List.mem_map.mp hl with ⟨s2, _, hs2⟩
        rw [← hs2]
        exact defaultLine_nonheader opt.dest s2
      have hX := nonheader_all_append (nonheader_all_append (nonheader_all_append hA hB) hC) hD
      intro l hl
      rcases List.mem_append.mp hl with hl1 | hl1
      · rcases List.mem_append.mp hl1 with hl2 | hl2
        · rcases List.mem_append.mp hl2 with hl3 | hl3
          · by_cases hb : b
            · rw [if_pos hb] at hl3
              rcases List.mem_append.mp hl3 with hl4 | hl4
              · exact hX l hl4
              · rw [List.mem_singleton] at hl4
                rw [hl4]
                intro he
                exact absurd (Option.some.inj he) (by decide)
            · rw [if_neg hb] at hl3
              exact hX l hl3
          · exact hF l hl3
        · exact hG l hl2
      · exact hH l hl1

theorem renderOpt_nonheader (f : OptFormatter) (hw : WrapOk f) (opt : Opt) :
    ∀ l ∈ renderOpt f opt, headChar l ≠ Option.some '[' := by
  intro l hl
  unfold renderOpt at hl
  rcases List.mem_cons.mp hl with h | h
  · rw [h]
    intro he
    exact absurd (Option.some.inj he) (by decide)
  · cases hf : format f opt with
    | ok ls =>
      rw [hf] at h
      exact format_nonheader f hw opt ls hf l h
    | error e =>
      rw [hf] at h
      rcases List.mem_cons.mp h with h2 | h2
      · rw [h2]
        exact nonheader_append "\n" '#'
          (headChar_append "# Warning: Failed to format sample for " _ '#' rfl) (by decide)
      · rw [List.mem_singleton] at h2
        rw [h2]
        exact nonheader_append "\n" '#' (headChar_append "# " _ '#' rfl) (by decide)

theorem catMap_nonheader {α : Type} (g : α → List String)
    (hp : ∀ a : α, ∀ l ∈ g a, headChar l ≠ Option.some '[') :
    ∀ lst : List α, ∀ l ∈ catMap g lst, headChar l ≠ Option.some '['
  | [], l, hl => by cases hl
  | a :: rest, l, hl => by
    rcases List.mem_append.mp hl with h | h
    · exact hp a l h
    · exact catMap_nonheader g hp rest l h

theorem outputBlocks_nonheader (f : OptFormatter) (hw : WrapOk f) :
    ∀ lst : List (String × List Opt),
      ∀ l ∈ catMap (fun p => bannerOf p.1 :: catMap (renderOpt f) p.2) lst,
        headChar l ≠ Option.some '[' := by
  apply catMap_nonheader
  intro p l hl
  rcases List.mem_cons.mp hl with h | h
  · rw [h]
    exact nonheader_append _ '\n' (headChar_append "\n#\n# From " _ '\n' rfl) (by decide)
  · exact catMap_nonheader (renderOpt f) (renderOpt_nonheader f hw) p.2 l h

theorem headersOf_append (L1 L2 : List String) :
    headersOf (L1 ++ L2) = headersOf L1 ++ headersOf L2 := by
  unfold headersOf
  rw [List.filter_append]

theorem headersOf_nil_of_nonheader (L : List String)
    (h : ∀ l ∈ L, headChar l ≠ Option.some '[') : headersOf L = [] := by
  unfold headersOf
  rw [List.filter_eq_nil_iff]
  intro a ha
  simp only [decide_eq_true_eq]
  exact h a ha

theorem header_headChar (s : String) : headChar ("[" ++ s ++ "]\n") = Option.some '[' :=
  headChar_append _ "]\n" '[' (headChar_append "[" s '[' rfl)

theorem headersOf_format_group (f : OptFormatter) (hw : WrapOk f) (key : SectionKey) :
    headersOf (format_group f key) = [sectionHeader key] := by
  cases key with
  | str s =>
    unfold headersOf format_group sectionHeader
    rw [List.filter_cons]
    simp only [header_headChar, decide_eq_true_eq, if_pos, List.filter_nil]
  | group g =>
    unfold format_group sectionHeader
    have h1 : headersOf [("[" ++ g.name ++ "]\n")] = ["[" ++ g.name ++ "]\n"] := by
      unfold headersOf
      rw [List.filter_cons]
      simp only [header_headChar, decide_eq_true_eq, if_pos, List.filter_nil]
    have h2 : headersOf (if pyTruthyStr g.help then _format_help f (g.help.getD "") else []) =
        [] := by
      apply headersOf_nil_of_nonheader
      intro l hl
      by_cases hh : pyTruthyStr g.help
      · rw [if_pos hh] at hl
        exact formatHelp_nonheader f hw _ l hl
      · rw [if_neg hh] at hl
        cases hl
    calc headersOf (("[" ++ g.name ++ "]\n") ::
          (if pyTruthyStr g.help then _format_help f (g.help.getD "") else []))
        = headersOf (["[" ++ g.name ++ "]\n"] ++
            (if pyTruthyStr g.help then _format_help f (g.help.getD "") else [])) := rfl
      _ = ["[" ++ g.name ++ "]\n"] := by rw [headersOf_append, h1, h2, List.append_nil]

theorem headersOf_output_opts (f : OptFormatter) (hw : WrapOk f) (key : SectionKey)
    (nss : List (String × List Opt)) :
    headersOf (_output_opts f key nss) = [sectionHeader key] := by
  unfold _output_opts
  rw [headersOf_append, headersOf_format_group f hw,
    headersOf_nil_of_nonheader _ (outputBlocks_nonheader f hw _), List.append_nil]

theorem headersOf_sections (f : OptFormatter) (hw : WrapOk f) :
    ∀ lst : List (SectionKey × List (String × List Opt)),
      headersOf (catMap (fun p => "\n\n" :: _output_opts f p.1 p.2) lst) =
        lst.map (fun p => sectionHeader p.1)
  | [] => rfl
  | p :: rest => by
    simp only [catMap_cons, List.map_cons]
    rw [show ("\n\n" :: _output_opts f p.1 p.2) ++
        catMap (fun p => "\n\n" :: _output_opts f p.1 p.2) rest =
        ["\n\n"] ++ (_output_opts f p.1 p.2 ++
          catMap (fun p => "\n\n" :: _output_opts f p.1 p.2) rest) from rfl]
    rw [headersOf_append, headersOf_append, headersOf_output_opts f hw,
      headersOf_sections f hw rest]
    have h0 : headersOf ["\n\n"] = [] := by
      apply headersOf_nil_of_nonheader
      intro l hl
      rw [List.mem_singleton] at hl
      rw [hl]
      intro he
      exact absurd (Option.some.inj he) (by decide)
    rw [h0]
    rfl

/-- The full header sequence of a generation run: `[DEFAULT]` first,
then one header per remaining section in the sorted order `generate`
uses. -/
theorem headersOf_generate (f : OptFormatter) (hw : WrapOk f)
    (cns : List (String × List (Option OptGroup × List Opt))) :
    headersOf (generate f cns) =
      "[DEFAULT]\n" ::
        (sortS (keyLt _get_group_name)
          (odErase (SectionKey.str "DEFAULT") (_get_groups cns))).map
            (fun p => sectionHeader p.1) := by
  unfold generate
  rw [headersOf_append, headersOf_output_opts f hw, headersOf_sections f hw]
  rfl

theorem odGet_odModify_ne {K V : Type} [DecidableEq K] (k1 k2 : K) (h : k2 ≠ k1)
    (d : V) (fm : V → V) :
    ∀ l : List (K × V), odGet k1 (odModify k2 d fm l) = odGet k1 l
  | [] => by
    simp only [odModify, odGet, if_neg h]
  | (k0, v0) :: rest => by
    simp only [odModify, odGet]
    by_cases h0 : k0 = k2
    · rw [if_pos h0]
      simp only [odGet]
      have h1 : k0 ≠ k1 := fun hk => h (h0 ▸ hk)
      rw [if_neg h1, if_neg h1]
    · rw [if_neg h0]
      simp only [odGet]
      by_cases h1 : k0 = k1
      · rw [if_pos h1, if_pos h1]
      · rw [if_neg h1, if_neg h1]
        exact odGet_odModify_ne k1 k2 h d fm rest

theorem get_groups_inner_default (ns : String) :
    ∀ (listing : List (Option OptGroup × List Opt))
      (acc : List (SectionKey × List (String × List Opt))),
      (∀ q ∈ listing, q.1 = Option.none → (q.2 : List Opt) = []) →
      odGet (SectionKey.str "DEFAULT") acc = Option.some [] →
      odGet (SectionKey.str "DEFAULT")
        (listing.foldl
          (fun groups q =>
            if q.2.isEmpty then groups
            else odModify (sectionKeyOf q.1) [] (fun l => l ++ [(ns, q.2)]) groups)
          acc) = Option.some []
  | [], acc, _, hacc => hacc
  | q :: rest, acc, hemp, hacc => by
    simp only [List.foldl_cons]
    by_cases hq : q.2.isEmpty
    · rw [if_pos hq]
      exact get_groups_inner_default ns rest acc
        (fun q0 h0 => hemp q0 (List.mem_cons_of_mem q h0)) hacc
    · rw [if_neg hq]
      cases hq1 : q.1 with
      | none =>
        have : (q.2 : List Opt) = [] := hemp q (List.mem_cons_self q rest) hq1
        rw [this] at hq
        exact absurd rfl hq
      | some g =>
        apply get_groups_inner_default ns rest _
          (fun q0 h0 => hemp q0 (List.mem_cons_of_mem q h0))
        rw [odGet_odModify_ne _ _ (by intro hk; exact SectionKey.noConfusion hk) _ _ acc]
        exact hacc

theorem get_groups_default_empty :
    ∀ (cns : List (String × List (Option OptGroup × List Opt)))
      (acc : List (SectionKey × List (String × List Opt))),
      (∀ p ∈ cns, ∀ q ∈ p.2, q.1 = Option.none → (q.2 : List Opt) = []) →
      odGet (SectionKey.str "DEFAULT") acc = Option.some [] →
      odGet (SectionKey.str "DEFAULT")
        (cns.foldl
          (fun groups p =>
            p.2.foldl
              (fun groups q =>
                if q.2.isEmpty then groups
                else odModify (sectionKeyOf q.1) [] (fun l => l ++ [(p.1, q.2)]) groups)
              groups)
          acc) = Option.some []
  | [], acc, _, hacc => hacc
  | p :: rest, acc, hemp, hacc => by
    simp only [List.foldl_cons]
    exact get_groups_default_empty rest _
      (fun p0 h0 => hemp p0 (List.mem_cons_of_mem p h0))
      (get_groups_inner_default p.1 p.2 acc
        (hemp p (List.mem_cons_self p rest)) hacc)

/-! ## Concrete fixtures shared by the claim theorems -/

/-- A formatter with wrap width 0: the unwrapped help branch is taken and
the external textwrap collaborator is never consulted. -/
def fmtPlain : OptFormatter := ⟨fun _ _ => "", Option.some 0⟩

/-- A plain, fully well-formed string option. -/
def strOptEx (dest : String) (dv : String) : Opt :=
  ⟨dest, OptClass.strOpt, Option.none, PyVal.str dv, PyVal.none,
   ⟨Option.none, Option.none, Option.none, Option.none, Option.none⟩,
   Option.some false, [], false, Option.none⟩

/-- A foreign option object on which the `mutable` attribute access
raises `AttributeError` (the situation of generator.py lines 209-231). -/
def foreignOpt : Opt :=
  ⟨"foo", OptClass.strOpt, Option.none, PyVal.str "x", PyVal.none,
   ⟨Option.none, Option.none, Option.none, Option.none, Option.none⟩,
   Option.none, [], false, Option.none⟩

/-- An environment in which every locator resolves to a loader returning
no options. -/
def env0 : String → List Opt := fun _ => []

/-- The dict-typed option of the spec's example: default
`{"b": "2", "a": "1"}` under dest `dest`, with no `format_defaults`
capability on its type. -/
def dictOptEx : Opt :=
  ⟨"dest", OptClass.dictOpt, Option.none,
   PyVal.dict [("b", "2"), ("a", "1")], PyVal.none,
   ⟨Option.none, Option.none, Option.none, Option.none, Option.none⟩,
   Option.some false, [], false, Option.none⟩

/-- A boolean option with default `True`. -/
def boolOptEx : Opt :=
  ⟨"flag", OptClass.boolOpt, Option.none, PyVal.bool true, PyVal.none,
   ⟨Option.none, Option.none, Option.none, Option.none, Option.none⟩,
   Option.some false, [], false, Option.none⟩

/-- An aggregated listing with two case-contrasting groups `apple` and
`Zebra` and no default-section options. -/
def cns5 : List (String × List (Option OptGroup × List Opt)) :=
  [("n1", [(Option.some ⟨"apple", 0, Option.none⟩, [strOptEx "o1" "x"])]),
   ("n2", [(Option.some ⟨"Zebra", 1, Option.none⟩, [strOptEx "o2" "y"])])]

/-- `fmtPlain` satisfies the textwrap contract vacuously (its wrapping
collaborator returns the empty joined string). -/
theorem fmtPlain_wrapOk : WrapOk fmtPlain := fun _ _ => Or.inl rfl

/-! ## Claim theorems -/

/-- C1: the claim says every requested update hook runs strictly before
the corresponding namespace's option-listing callable is invoked.  The
code does the opposite: `_list_opts` (generator.py line 358) calls
`_get_raw_opts_loaders`, which already invokes every namespace loader
`func()` at line 331, and only afterwards (line 360) runs
`_update_defaults`.  At the failing input — one namespace `ns:pkg.loader`
with one update `ns:pkg.update` for the same source — the invocation
trace is `[listOptions "ns", updateHook "ns"]`: the option list is read
strictly before the update hook runs, contradicting the claim (and the
source's own comments at lines 362-369, whose commented-out block shows
the intended deferred invocation). -/
theorem c1_loader_invoked_before_update_hook :
    _list_opts_trace ["ns:pkg.loader"] ["ns:pkg.update"] =
      Except.ok [GenEvent.listOptions "ns", GenEvent.updateHook "ns"] := rfl

/-- C9: the claim says an option lacking the `mutable` attribute is
downgraded to a warning and its generation continues with best-effort
defaults.  In the code the `except AttributeError` handler (line 224)
evaluates `isinstance(cfg.Opt, opt)` with swapped arguments, which itself
raises `TypeError`; the error escapes `format`, so `_output_opts` replaces
the option's whole sample with the generic two-line
`Failed to format sample` warning instead of rendering it.  Evaluated at
a concrete foreign option: `format` raises, and the rendered block is the
replacement warning, not a best-effort sample. -/
theorem c9_missing_mutable_replaces_output :
    format fmtPlain foreignOpt =
      Except.error "isinstance() arg 2 must be a type or tuple of types" ∧
    renderOpt fmtPlain foreignOpt =
      ["\n",
       "# Warning: Failed to format sample for foo\n",
       "# isinstance() arg 2 must be a type or tuple of types\n"] :=
  ⟨rfl, rfl⟩

/-- C3: over any update run that completes, the invoked update hooks form
a subsequence of the caller-given update list (caller order preserved);
every invoked hook's source is the name of some requested namespace (so a
hook whose source matches no requested namespace is never invoked); and a
source that is both requested and claimed by some update is invoked
exactly once, no matter how many updates claim it. -/
theorem c3_update_hooks_matched_and_run_once (namespaces updates : List String)
    (invoked : List (String × String))
    (hrun : _update_defaults namespaces updates = Except.ok invoked) :
    invoked.Sublist (updates.filterMap (fun u => (pySplitColon u).toOption)) ∧
    (∀ p : String × String, p ∈ invoked →
      ∃ ns ∈ namespaces, ∃ c, pySplitColon ns = Except.ok (p.1, c)) ∧
    (∀ s : String,
      (¬ ∃ ns ∈ namespaces, ∃ c, pySplitColon ns = Except.ok (s, c)) →
      ∀ p ∈ invoked, p.1 ≠ s) ∧
    (∀ s : String,
      (∃ ns ∈ namespaces, ∃ c, pySplitColon ns = Except.ok (s, c)) →
      (∃ u ∈ updates, ∃ c, pySplitColon u = Except.ok (s, c)) →
      invoked.countP (fun p => decide (p.1 = s)) = 1) := by
  unfold _update_defaults at hrun
  cases hcn : collectNames namespaces with
  | error e =>
    rw [hcn] at hrun
    simp only [exceptBind_error] at hrun
    exact Except.noConfusion hrun
  | ok names =>
    rw [hcn] at hrun
    simp only [exceptBind_ok] at hrun
    refine ⟨runUpdates_sublist names updates invoked hrun, ?_, ?_, ?_⟩
    · intro p hp
      exact (collectNames_mem namespaces names hcn p.1).mp
        (runUpdates_mem names updates invoked hrun p hp)
    · intro s hnone p hp hps
      apply hnone
      rw [← hps]
      exact (collectNames_mem namespaces names hcn p.1).mp
        (runUpdates_mem names updates invoked hrun p hp)
    · intro s hns hus
      exact runUpdates_count_one names updates invoked s
        (collectNames_nodup namespaces names hcn)
        ((collectNames_mem namespaces names hcn s).mpr hns) hus hrun

/-- Witness for C3: a concrete run with two namespaces and three updates,
two of which claim the already-satisfied source `a` and one of which
claims the unrequested source `c`; only the first `a` update is invoked,
exactly once. -/
theorem c3_witness :
    _update_defaults ["a:m1", "b:m2"] ["a:u1", "a:u2", "c:u3"] =
      Except.ok [("a", "u1")] ∧
    ([(("a" : String), ("u1" : String))].countP (fun p => decide (p.1 = "a")) = 1) := by
  refine ⟨rfl, ?_⟩
  have h := c3_update_hooks_matched_and_run_once ["a:m1", "b:m2"]
    ["a:u1", "a:u2", "c:u3"] [("a", "u1")] rfl
  exact h.2.2.2 "a" ⟨"a:m1", by simp, "m1", rfl⟩ ⟨"a:u1", by simp, "u1", rfl⟩

/-- C2: in a namespace listing where two options with the same `dest`
appear under the same (namespace, group) — here at positions `|pre|` and
`|pre| + |mid| + 1`, with all other dests distinct — the aggregated
registry keeps exactly one entry for that dest, at the position of the
first occurrence, carrying the second (later) registration `o2`; every
other entry stays in first-seen order. -/
theorem c2_duplicate_dest_overwritten_in_place (ns : String) (g : Option OptGroup)
    (pre mid post : List Opt) (o1 o2 : Opt)
    (hdup : o2.dest = o1.dest)
    (hnd : ((pre ++ o1 :: (mid ++ post)).map Opt.dest).Nodup) :
    _cleanup_opts [(ns, [(g, pre ++ o1 :: (mid ++ o2 :: post))])] =
      [(ns, [(g, pre ++ o2 :: (mid ++ post))])] := by
  -- unpack the duplicate-freeness hypothesis
  simp only [List.map_append, List.map_cons] at hnd
  rw [List.nodup_append] at hnd
  obtain ⟨hndpre, hndrest, hdisj⟩ := hnd
  rw [List.nodup_cons] at hndrest
  obtain ⟨ho1rest, hndmidpost⟩ := hndrest
  rw [List.nodup_append] at hndmidpost
  obtain ⟨hndmid, hndpost, hdisjmp⟩ := hndmidpost
  have ho1pre : o1.dest ∉ pre.map Opt.dest := fun hmem =>
    hdisj hmem (List.mem_cons_self _ _)
  have ho1mid : o1.dest ∉ mid.map Opt.dest := fun hmem =>
    ho1rest (List.mem_append_left _ hmem)
  have ho1post : o1.dest ∉ post.map Opt.dest := fun hmem =>
    ho1rest (List.mem_append_right _ hmem)
  -- evaluate the aggregation
  rw [cleanup_opts_single]
  have hsplit : pre ++ o1 :: (mid ++ o2 :: post) = (pre ++ o1 :: mid) ++ (o2 :: post) := by
    simp
  rw [hsplit, List.foldl_append]
  have hA : (pre ++ o1 :: mid).foldl (fun m o => odSet o.dest o m) [] =
      (pre ++ o1 :: mid).map (fun o => (o.dest, o)) := by
    rw [odSetAll_fresh (pre ++ o1 :: mid) [] (by simp) ?_]
    · simp
    · simp only [List.map_append, List.map_cons]
      rw [List.nodup_append, List.nodup_cons]
      refine ⟨hndpre, ⟨ho1mid, hndmid⟩, ?_⟩
      intro a ha hb
      rcases List.mem_cons.mp hb with h | h
      · rw [h] at ha
        exact ho1pre ha
      · exact hdisj ha (List.mem_cons_of_mem _ (List.mem_append_left _ h))
  rw [hA]
  simp only [List.foldl_cons]
  have hB : odSet o2.dest o2 ((pre ++ o1 :: mid).map (fun o => (o.dest, o))) =
      pre.map (fun o => (o.dest, o)) ++ (o1.dest, o2) :: mid.map (fun o => (o.dest, o)) := by
    rw [hdup]
    rw [List.map_append, List.map_cons]
    rw [odSet_mem_middle o1.dest o2 o1 _ _ ?_]
    simp only [List.map_map]
    exact fun hmem => ho1pre (by simpa using hmem)
  rw [hB]
  have hC : post.foldl (fun m o => odSet o.dest o m)
      (pre.map (fun o => (o.dest, o)) ++ (o1.dest, o2) :: mid.map (fun o => (o.dest, o))) =
      (pre.map (fun o => (o.dest, o)) ++ (o1.dest, o2) :: mid.map (fun o => (o.dest, o))) ++
        post.map (fun o => (o.dest, o)) := by
    rw [odSetAll_fresh post _ ?_ hndpost]
    intro o ho
    simp only [List.map_append, List.map_cons, List.map_map, List.mem_append, List.mem_cons]
    push_neg
    refine ⟨?_, ?_, ?_⟩
    · intro hmem
      exact hdisj (by simpa using hmem)
        (List.mem_cons_of_mem _ (List.mem_append_right _ (List.mem_map_of_mem Opt.dest ho)))
    · intro heq
      exact ho1post (heq ▸ List.mem_map_of_mem Opt.dest ho)
    · intro hmem
      exact hdisjmp (by simpa using hmem) (List.mem_map_of_mem Opt.dest ho)
  rw [hC]
  simp only [odValues, List.map_append, List.map_cons, List.map_map]
  have hid : (Prod.snd ∘ fun o : Opt => (o.dest, o)) = id := rfl
  rw [hid]
  simp

/-- Witness for C2: a concrete duplicate under one (namespace, group);
the aggregated listing keeps the second registration at the first
occurrence's position. -/
theorem c2_witness :
    _cleanup_opts [("n", [(Option.none,
        [strOptEx "a" "1", strOptEx "d" "first", strOptEx "b" "2",
         strOptEx "d" "second", strOptEx "c" "3"])])] =
      [("n", [(Option.none,
        [strOptEx "a" "1", strOptEx "d" "second", strOptEx "b" "2",
         strOptEx "c" "3"])])] := by
  have h := c2_duplicate_dest_overwritten_in_place "n" Option.none
    [strOptEx "a" "1"] [strOptEx "b" "2"] [strOptEx "c" "3"]
    (strOptEx "d" "first") (strOptEx "d" "second") rfl (by decide)
  simpa using h


/-- C8 counterexample: the claim says a namespace identifier is split on
the first `:` from the right, which on `"a:b:c"` would give the pair
`("a:b", "c")`.  The code instead runs `name, cls = namespace.split(":")`
(line 322), which splits on every colon — three parts here — so the tuple
unpacking raises `ValueError` and the whole run aborts: no split from the
right ever happens. -/
theorem c8_counterexample_multi_colon_raises :
    _get_raw_opts_loaders env0 ["a:b:c"] =
      Except.error "ValueError: namespace unpacking" ∧
    pySplit ':' "a:b:c" = ["a", "b", "c"] :=
  ⟨rfl, by decide⟩

/-- C8 (amended): for identifiers containing exactly one `:` the loader
splits each into (name, locator); a name that case-insensitively equals
`default` is canonicalized to the `DEFAULT` marker with no group object;
any other name gets a Group object named after it, created once and
reused (memoized by name) across the run — any two group objects
appearing in the output with the same name are the same object.
Identifiers with zero or several colons instead abort the run with a
`ValueError` (see the counterexample). -/
theorem c8_single_colon_split_and_group_memoization (env : String → List Opt)
    (namespaces : List String)
    (hwf : ∀ ns ∈ namespaces, ∃ n c, pySplitColon ns = Except.ok (n, c)) :
    ∃ out, _get_raw_opts_loaders env namespaces = Except.ok out ∧
      List.Forall₂ (nsEntry env) namespaces out ∧
      (∀ e1 ∈ out, ∀ e2 ∈ out, ∀ (g1 g2 : OptGroup) (o1 o2 : List Opt),
        (Option.some g1, o1) ∈ e1.2 → (Option.some g2, o2) ∈ e2.2 →
        g1.name = g2.name → g1 = g2) := by
  obtain ⟨out, memoNew, hok, hfa, hname2, hnd2, _, hmem2⟩ :=
    rawLoadersAux_spec env namespaces [] 0 hwf (by simp) (by simp) (by simp)
  refine ⟨out, hok, hfa, ?_⟩
  intro e1 he1 e2 he2 g1 g2 o1 o2 hg1 hg2 hnames
  have h1 : (g1.name, g1) ∈ memoNew := hmem2 e1 he1 g1 o1 hg1
  have h2 : (g2.name, g2) ∈ memoNew := hmem2 e2 he2 g2 o2 hg2
  rw [hnames] at h1
  exact nodup_keys_functional memoNew hnd2 g2.name g1 g2 h1 h2

/-- Witness for C8 (amended): a concrete run with a case-variant default
namespace and two namespaces sharing the group name `grp`. -/
theorem c8_witness :
    ∃ out, _get_raw_opts_loaders env0 ["DeFaUlT:m.a", "grp:m.b", "grp:m.c"] =
        Except.ok out ∧
      List.Forall₂ (nsEntry env0) ["DeFaUlT:m.a", "grp:m.b", "grp:m.c"] out ∧
      (∀ e1 ∈ out, ∀ e2 ∈ out, ∀ (g1 g2 : OptGroup) (o1 o2 : List Opt),
        (Option.some g1, o1) ∈ e1.2 → (Option.some g2, o2) ∈ e2.2 →
        g1.name = g2.name → g1 = g2) := by
  apply c8_single_colon_split_and_group_memoization env0
  intro ns hns
  rcases (by simpa using hns :
      ns = "DeFaUlT:m.a" ∨ ns = "grp:m.b" ∨ ns = "grp:m.c") with h | h | h
  · exact ⟨"DeFaUlT", "m.a", by rw [h]; rfl⟩
  · exact ⟨"grp", "m.b", by rw [h]; rfl⟩
  · exact ⟨"grp", "m.c", by rw [h]; rfl⟩

/-- C6: if formatting one option raises, `_output_opts` writes the
two-line warning — `# Warning: Failed to format sample for <dest>`
followed by a comment carrying the error text — in place of that option's
sample, and the rendering of the section continues: every option after
the failing one is still rendered exactly as it would have been, and the
run produces output rather than aborting (the rendering function is
total). -/
theorem c6_format_failure_warns_and_continues (f : OptFormatter) (key : SectionKey)
    (ns : String) (pre post : List Opt) (bad : Opt) (e : String)
    (herr : format f bad = Except.error e) :
    _output_opts f key [(ns, pre ++ bad :: post)] =
      format_group f key ++
        bannerOf ns ::
          (catMap (renderOpt f) pre ++
            ["\n", "# Warning: Failed to format sample for " ++ bad.dest ++ "\n",
             "# " ++ e ++ "\n"] ++
            catMap (renderOpt f) post) := by
  unfold _output_opts
  have hsort : sortS (keyLt Prod.fst) [(ns, pre ++ bad :: post)] =
      [(ns, pre ++ bad :: post)] := rfl
  rw [hsort]
  simp only [catMap_cons, catMap_nil, catMap_append, List.append_nil]
  have hbad : renderOpt f bad =
      ["\n", "# Warning: Failed to format sample for " ++ bad.dest ++ "\n",
       "# " ++ e ++ "\n"] := by
    unfold renderOpt
    rw [herr]
  rw [hbad]
  simp [List.append_assoc]

/-- Witness for C6: a concrete section in which the middle option lacks
the `mutable` attribute and therefore raises; its neighbours still
render. -/
theorem c6_witness :
    _output_opts fmtPlain (SectionKey.str "DEFAULT")
        [("n", [strOptEx "a" "1", foreignOpt, strOptEx "b" "2"])] =
      format_group fmtPlain (SectionKey.str "DEFAULT") ++
        bannerOf "n" ::
          (catMap (renderOpt fmtPlain) [strOptEx "a" "1"] ++
            ["\n", "# Warning: Failed to format sample for " ++ foreignOpt.dest ++ "\n",
             "# " ++ "isinstance() arg 2 must be a type or tuple of types" ++ "\n"] ++
            catMap (renderOpt fmtPlain) [strOptEx "b" "2"]) :=
  c6_format_failure_warns_and_continues fmtPlain (SectionKey.str "DEFAULT") "n"
    [strOptEx "a" "1"] [strOptEx "b" "2"] foreignOpt
    "isinstance() arg 2 must be a type or tuple of types" rfl

/-- C7: the best-effort default formatter (used exactly when the option's
type lacks `format_defaults`): a boolean default renders as lowercase
`true`/`false`; the dict default `{"b": "2", "a": "1"}` renders as the
key-sorted line `#dest = a:1,b:2`; a multi-valued option renders one
value per line, or a single blank-valued line when the default is empty
(or None) and no sample override is given; and a plain string default
with leading or trailing whitespace is wrapped in double quotes. -/
theorem c7_best_effort_default_formatting (o : Opt) :
    (o.cls = OptClass.boolOpt → o.sample_default = PyVal.none →
      ∀ b : Bool, o.default = PyVal.bool b →
      _format_defaults o = Except.ok [if b then "true" else "false"]) ∧
    (_format_defaults dictOptEx = Except.ok ["a:1,b:2"] ∧
      defaultLine "dest" "a:1,b:2" = "#dest = a:1,b:2\n") ∧
    (o.cls = OptClass.multiStrOpt → o.sample_default = PyVal.none →
      ((o.default = PyVal.none ∨ o.default = PyVal.list []) →
        _format_defaults o = Except.ok [""] ∧
        defaultLine o.dest "" = "#" ++ o.dest ++ " =" ++ "\n") ∧
      (∀ vs : List String, o.default = PyVal.list vs → vs ≠ [] →
        _format_defaults o = Except.ok (vs.map quoteDefault) ∧
        (vs.map quoteDefault).length = vs.length)) ∧
    (o.cls = OptClass.strOpt → o.sample_default = PyVal.none →
      ∀ s : String, o.default = PyVal.str s →
      _format_defaults o = Except.ok [quoteDefault s] ∧
      (pyStrip s ≠ s → quoteDefault s = "\"" ++ s ++ "\"")) := by
  obtain ⟨dest, cls, help, dflt, sdflt, ty, mu, dops, dfr, drsn⟩ := o
  refine ⟨?_, ⟨rfl, rfl⟩, ?_, ?_⟩
  · rintro rfl rfl b rfl
    cases b <;> rfl
  · rintro rfl rfl
    constructor
    · rintro (rfl | rfl) <;>
        exact ⟨rfl, string_data_ext (by simp [defaultLine, String.data_append])⟩
    · rintro vs rfl hne
      cases vs with
      | nil => exact absurd rfl hne
      | cons v vt => exact ⟨rfl, by simp⟩
  · rintro rfl rfl s rfl
    refine ⟨rfl, ?_⟩
    intro hws
    unfold quoteDefault
    rw [if_pos hws]

/-- Witness for C7: the boolean branch at the concrete option with
default `True` renders `true`. -/
theorem c7_witness : _format_defaults boolOptEx = Except.ok ["true"] :=
  (c7_best_effort_default_formatting boolOptEx).1 rfl rfl true rfl

/-- C4: in every generation run the very first written string is the
`[DEFAULT]` header — before any other section header, whatever the
namespace inputs — the full header sequence being `[DEFAULT]` followed by
the remaining sections' headers; and when no namespace contributed any
default-section options the popped `'DEFAULT'` entry is the empty
namespaces list (seeded by `_get_groups`), so the section is still
emitted, with an empty body. -/
theorem c4_default_section_rendered_first (f : OptFormatter) (hw : WrapOk f)
    (cns : List (String × List (Option OptGroup × List Opt))) :
    (generate f cns).head? = Option.some "[DEFAULT]\n" ∧
    headersOf (generate f cns) =
      "[DEFAULT]\n" ::
        (sortS (keyLt _get_group_name)
          (odErase (SectionKey.str "DEFAULT") (_get_groups cns))).map
            (fun p => sectionHeader p.1) ∧
    ((∀ p ∈ cns, ∀ q ∈ p.2, q.1 = Option.none → (q.2 : List Opt) = []) →
      odGetD (SectionKey.str "DEFAULT") [] (_get_groups cns) = []) := by
  refine ⟨rfl, headersOf_generate f hw cns, ?_⟩
  intro hemp
  unfold odGetD _get_groups
  rw [get_groups_default_empty cns [(SectionKey.str "DEFAULT", [])] hemp rfl]
  rfl

/-- Witness for C4: a run whose namespaces contribute only to the
`apple` and `Zebra` sections still opens with the `[DEFAULT]` header and
carries an empty DEFAULT namespaces list. -/
theorem c4_witness :
    (generate fmtPlain cns5).head? = Option.some "[DEFAULT]\n" ∧
    odGetD (SectionKey.str "DEFAULT") [] (_get_groups cns5) = [] := by
  have h := c4_default_section_rendered_first fmtPlain fmtPlain_wrapOk cns5
  refine ⟨h.1, h.2.2 ?_⟩
  intro p hp q hq
  rcases (by simpa [cns5] using hp :
      p = ("n1", [(Option.some ⟨"apple", 0, Option.none⟩, [strOptEx "o1" "x"])]) ∨
      p = ("n2", [(Option.some ⟨"Zebra", 1, Option.none⟩, [strOptEx "o2" "y"])]))
      with h1 | h1 <;>
    · rw [h1] at hq
      rcases (by simpa using hq) with h2
      rw [h2]
      intro hq1
      exact Option.noConfusion hq1

/-- C5 counterexample: the claim says non-default sections are rendered
in case-insensitive alphabetical order.  With sections `apple` and
`Zebra`, case-insensitive order puts `apple` first (`apple < zebra`), but
the run renders `Zebra` first: `sorted(..., key=_get_group_name)`
compares raw group names code-point-wise and `Z` (0x5A) sorts before `a`
(0x61). -/
theorem c5_counterexample_case_sensitive_order :
    headersOf (generate fmtPlain cns5) = ["[DEFAULT]\n", "[Zebra]\n", "[apple]\n"] ∧
    pyStrLt (pyLower "apple") (pyLower "Zebra") = true := by
  exact ⟨by decide, by decide⟩

/-- C5 (amended): the non-default sections are rendered after the
default section in case-sensitive code-point lexicographic order of
their section names, a plain string name and a Group object with that
name being treated as equivalent (`_get_group_name` extracts the same
key from both). -/
theorem c5_sections_sorted_case_sensitively (f : OptFormatter) (hw : WrapOk f)
    (cns : List (String × List (Option OptGroup × List Opt))) :
    ∃ names : List String,
      headersOf (generate f cns) = "[DEFAULT]\n" :: names.map (fun n => "[" ++ n ++ "]\n") ∧
      names.Pairwise (fun a b => pyStrLt b a = false) ∧
      names = (sortS (keyLt _get_group_name)
        (odErase (SectionKey.str "DEFAULT") (_get_groups cns))).map _get_group_name := by
  refine ⟨(sortS (keyLt _get_group_name)
    (odErase (SectionKey.str "DEFAULT") (_get_groups cns))).map _get_group_name, ?_, ?_, rfl⟩
  · rw [headersOf_generate f hw cns, List.map_map]
    have hcomp : ((fun n => "[" ++ n ++ "]\n") ∘ _get_group_name) =
        (fun p : SectionKey × List (String × List Opt) => sectionHeader p.1) := by
      funext p
      cases hp : p.1 with
      | str s => simp [Function.comp, _get_group_name, hp, sectionHeader]
      | group g => simp [Function.comp, _get_group_name, hp, sectionHeader]
    rw [hcomp]
  · exact List.pairwise_map.mpr (sortS_pairwise _get_group_name _)

/-- Witness for C5 (amended): the theorem instantiated at the concrete
`apple`/`Zebra` run. -/
theorem c5_witness :
    ∃ names : List String,
      headersOf (generate fmtPlain cns5) =
        "[DEFAULT]\n" :: names.map (fun n => "[" ++ n ++ "]\n") ∧
      names.Pairwise (fun a b => pyStrLt b a = false) ∧
      names = (sortS (keyLt _get_group_name)
        (odErase (SectionKey.str "DEFAULT") (_get_groups cns5))).map _get_group_name :=
  c5_sections_sorted_case_sensitively fmtPlain fmtPlain_wrapOk cns5

/-- C10: within a rendered section the per-namespace blocks are emitted
in code-point lexicographic order of the namespace names — each block
opening with its `# From <namespace>` banner — rather than in the
aggregation's insertion order; and for duplicate-free namespace names the
section's output is invariant under permutations of the namespace list,
so it is deterministic and independent of the request order. -/
theorem c10_blocks_sorted_by_namespace (f : OptFormatter) (key : SectionKey)
    (nss : List (String × List Opt)) :
    ∃ sorted1 : List (String × List Opt),
      List.Perm sorted1 nss ∧
      sorted1.Pairwise (fun a b => pyStrLt b.1 a.1 = false) ∧
      _output_opts f key nss =
        format_group f key ++
          catMap (fun p => bannerOf p.1 :: catMap (renderOpt f) p.2) sorted1 ∧
      (∀ nss' : List (String × List Opt),
        List.Perm nss' nss → (nss.map Prod.fst).Nodup →
        _output_opts f key nss' = _output_opts f key nss) := by
  refine ⟨sortS (keyLt Prod.fst) nss, sortS_perm (keyLt Prod.fst) nss,
    sortS_pairwise Prod.fst nss, rfl, ?_⟩
  intro nss' hperm hnd
  unfold _output_opts
  have hnd' : (nss'.map Prod.fst).Nodup := ((hperm.map Prod.fst).nodup_iff).mpr hnd
  rw [sortS_eq_of_perm Prod.fst nss' nss hperm hnd']

/-- Witness for C10: swapping two namespaces in a concrete section does
not change the rendered output. -/
theorem c10_witness :
    _output_opts fmtPlain (SectionKey.str "DEFAULT")
        [("b", [strOptEx "y" "2"]), ("a", [strOptEx "x" "1"])] =
      _output_opts fmtPlain (SectionKey.str "DEFAULT")
        [("a", [strOptEx "x" "1"]), ("b", [strOptEx "y" "2"])] := by
  obtain ⟨s1, hperm, hpw, heq, hind⟩ :=
    c10_blocks_sorted_by_namespace fmtPlain (SectionKey.str "DEFAULT")
      [("a", [strOptEx "x" "1"]), ("b", [strOptEx "y" "2"])]
  exact hind [("b", [strOptEx "y" "2"]), ("a", [strOptEx "x" "1"])]
    (List.Perm.swap ("a", [strOptEx "x" "1"]) ("b", [strOptEx "y" "2"]) [])
    (by decide)

end OsloCfg
